import Mathlib

/-!
Verification of the lineup-generation core of the AYSO Roster Pro repository.

The development shallowly embeds the scheduling/assignment/validation engine,
which exists in two near-identical copies in the source: the web-worker copy
(`src/unnamed/part_009`, functions `determineSittingSchedule`,
`findNonConsecutiveSittingQuarter`, `selectKeeper`, `assignPositionsOptimally`,
`generateQuarterLineup`, `validateLineup`, `generateLineup`) and the
main-thread copy (`src/public/app.js`, same function names as methods).

Modelling conventions:
* JavaScript's `Math.random()`-driven choices (array shuffles, the keeper's
  random index, the score jitter) are nondeterministic inputs; they are passed
  in explicitly (shuffle results, an index that is reduced mod the pool size,
  a jitter value per player/position).  Universally quantified theorems hold
  for every choice; concrete executions instantiate them.
* Scores in `assignPositionsOptimally` are integers in the source except for
  the additive jitter `Math.random() * 5`; the jitter is modelled as an
  arbitrary integer summand.  No property proved below depends on the
  granularity of the jitter.
* Player records are mutated in place in the source; here the roster is a
  list of records updated functionally.  Rosters have unique player names
  (a data-model invariant of the repository), so updating by name coincides
  with the source's update through an object reference; theorems that need
  this carry an explicit `Nodup` hypothesis.
* The validator's issue strings are modelled by a structured inductive type
  `Violation`, one constructor per message template of the source, carrying
  exactly the data interpolated into the template.
-/

namespace Soccer

/-- JavaScript `Math.abs(a - b)` for the quarter numbers involved. -/
def natDist (a b : Nat) : Nat := max a b - min a b

/-- `Math.abs(sat - q) === 1`: the two quarters are adjacent. -/
def isAdjacent (sat q : Nat) : Bool := natDist sat q == 1

/-- The sitting schedule `{1: [], 2: [], 3: [], 4: []}` of
`determineSittingSchedule`: per quarter, the names sitting that quarter in
assignment order (`schedule[q].push(name)`). -/
structure Schedule where
  s1 : List String
  s2 : List String
  s3 : List String
  s4 : List String
deriving Repr, DecidableEq

def Schedule.empty : Schedule := ⟨[], [], [], []⟩

def Schedule.get (s : Schedule) (q : Nat) : List String :=
  if q = 1 then s.s1 else if q = 2 then s.s2 else if q = 3 then s.s3
  else if q = 4 then s.s4 else []

def Schedule.push (s : Schedule) (q : Nat) (n : String) : Schedule :=
  if q = 1 then { s with s1 := s.s1 ++ [n] }
  else if q = 2 then { s with s2 := s.s2 ++ [n] }
  else if q = 3 then { s with s3 := s.s3 ++ [n] }
  else if q = 4 then { s with s4 := s.s4 ++ [n] }
  else s

theorem Schedule.get_push (s : Schedule) (q' : Nat) (n : String) (q : Nat) :
    (s.push q' n).get q =
      if q = q' ∧ 1 ≤ q' ∧ q' ≤ 4 then s.get q ++ [n] else s.get q := by
  unfold Schedule.push Schedule.get
  split_ifs <;> first | rfl | omega

theorem Schedule.get_empty (q : Nat) : Schedule.empty.get q = [] := by
  unfold Schedule.empty Schedule.get
  split_ifs <;> rfl

/-- One entry of the `playersCopy` array built at the top of
`determineSittingSchedule`: name, `mustRest` flag and the accumulating
`sittingQuarters` list. -/
structure SPlayer where
  name : String
  mustRest : Bool
  sits : List Nat
deriving Repr, DecidableEq

/-- The rejection test shared by both loops of
`findNonConsecutiveSittingQuarter`: the quarter is not full, the player does
not already sit it, and it is not adjacent to a quarter the player already
sits. -/
def okQuarter (cur : List Nat) (sched : Schedule) (maxSitting q : Nat) : Bool :=
  decide ((sched.get q).length < maxSitting) &&
  !(cur.contains q) &&
  !(cur.any (fun sat => isAdjacent sat q))

/-- `findNonConsecutiveSittingQuarter(currentSittingQuarters, schedule,
maxSitting)` (worker lines 131-163; app.js lines 2344-2393): first scan the
preferred order `[1, 3, 2, 4]`, then fall back to scanning `1..4` in order
with the same three rejection rules; `-1` is modelled as `none`. -/
def findNonConsecutiveSittingQuarter (cur : List Nat) (sched : Schedule)
    (maxSitting : Nat) : Option Nat :=
  match [1, 3, 2, 4].find? (okQuarter cur sched maxSitting) with
  | some q => some q
  | none => [1, 2, 3, 4].find? (okQuarter cur sched maxSitting)

/-- State threaded through the passes of `determineSittingSchedule`: the
`playersCopy` array and the schedule being filled. -/
structure SchedState where
  ps : List SPlayer
  sched : Schedule
deriving Repr, DecidableEq

/-- The shared assign step: look the player up, find a quarter, and on
success push the quarter to the player's `sittingQuarters` and the player's
name to `schedule[q]`; on `-1` leave everything unchanged. -/
def assignIdx (maxSitting : Nat) (st : SchedState) (i : Nat) : SchedState :=
  match st.ps[i]? with
  | none => st
  | some p =>
    match findNonConsecutiveSittingQuarter p.sits st.sched maxSitting with
    | none => st
    | some q =>
      ⟨st.ps.set i { p with sits := p.sits ++ [q] }, st.sched.push q p.name⟩

/-- First pass of `determineSittingSchedule`: every `mustRest` player (they
occupy the first `m` indices of the combined array) gets one sitting
quarter if one is available. -/
def mustRestPass (maxSitting m : Nat) (st : SchedState) : SchedState :=
  (List.range m).foldl (assignIdx maxSitting) st

/-- Body of the second pass: skip the player if they already have more than
`i` sits, else run the assign step. -/
def minPassStep (maxSitting i : Nat) (st : SchedState) (idx : Nat) : SchedState :=
  match st.ps[idx]? with
  | none => st
  | some p => if p.sits.length > i then st else assignIdx maxSitting st idx

/-- Second pass: `for i in 0..minSitsPerPlayer-1`, give every player their
`i+1`-st sit unless they already have it. -/
def minPass (maxSitting minSits n : Nat) (st : SchedState) : SchedState :=
  (List.range minSits).foldl
    (fun s i => (List.range n).foldl (minPassStep maxSitting i) s) st

/-- Third pass: walk the shuffled player order (here: a list of indices into
the combined array) until `extra` additional sits have been assigned; skip
players that already have `neededSits` sits or for which no quarter is
found. -/
def extraPass (maxSitting neededSits extra : Nat) :
    List Nat → Nat → SchedState → SchedState
  | [], _, st => st
  | idx :: rest, assigned, st =>
    if extra ≤ assigned then st
    else
      match st.ps[idx]? with
      | none => extraPass maxSitting neededSits extra rest assigned st
      | some p =>
        if neededSits ≤ p.sits.length then
          extraPass maxSitting neededSits extra rest assigned st
        else
          match findNonConsecutiveSittingQuarter p.sits st.sched maxSitting with
          | none => extraPass maxSitting neededSits extra rest assigned st
          | some q =>
            extraPass maxSitting neededSits extra rest (assigned + 1)
              ⟨st.ps.set idx { p with sits := p.sits ++ [q] },
               st.sched.push q p.name⟩

/-- The `playersCopy` array: one fresh record per roster entry
(name, mustRest), starting with no sitting quarters. -/
def mkCopies (players : List (String × Bool)) : List SPlayer :=
  players.map (fun nm => ⟨nm.1, nm.2, []⟩)

/-- `determineSittingSchedule(players, playersOnField, quarters)` (worker
lines 110-207; the app.js copy at lines 2227-2342 differs only in how the
two shuffled orders are produced, which is irrelevant here because both
orders are explicit parameters: `regShuffled` is the shuffled array of
non-`mustRest` copies and `extraOrder` the shuffled iteration order (as
indices into the combined array) of the extra-sit pass).  Returns the final
state: the schedule together with the per-player sitting quarters. -/
def determineSittingSchedule (players : List (String × Bool))
    (regShuffled : List SPlayer) (playersOnField quarters : Nat)
    (extraOrder : List Nat) : SchedState :=
  let copies := mkCopies players
  let mustRestPs := copies.filter (·.mustRest)
  let allPs := mustRestPs ++ regShuffled
  let totalPlayers := players.length
  let sittingPerQuarter := totalPlayers - playersOnField
  let totalSittingSlots := sittingPerQuarter * quarters
  let minSits := totalSittingSlots / totalPlayers
  let extra := totalSittingSlots % totalPlayers
  let maxSitting := totalPlayers - playersOnField
  let st1 := mustRestPass maxSitting mustRestPs.length ⟨allPs, Schedule.empty⟩
  let st2 := minPass maxSitting minSits totalPlayers st1
  extraPass maxSitting (minSits + 1) extra extraOrder 0 st2

/-! ### Basic facts about `findNonConsecutiveSittingQuarter` -/

theorem okQuarter_nil (sched : Schedule) (ms q : Nat) :
    okQuarter [] sched ms q = decide ((sched.get q).length < ms) := by
  simp [okQuarter]

/-- The fallback loop of `findNonConsecutiveSittingQuarter` applies exactly
the same rejection rules as the preferred-order loop, so the function is the
preferred-order scan: the fallback can never find a quarter the first loop
missed. -/
theorem findNC_eq_preferred (cur : List Nat) (sched : Schedule) (ms : Nat) :
    findNonConsecutiveSittingQuarter cur sched ms =
      [1, 3, 2, 4].find? (okQuarter cur sched ms) := by
  unfold findNonConsecutiveSittingQuarter
  cases h : [1, 3, 2, 4].find? (okQuarter cur sched ms) with
  | some q => rfl
  | none =>
    simp only
    rw [List.find?_eq_none] at h ⊢
    intro q hq
    apply h
    simp only [List.mem_cons, List.not_mem_nil, or_false] at hq ⊢
    tauto

theorem findNC_some_ok {cur : List Nat} {sched : Schedule} {ms q : Nat}
    (h : findNonConsecutiveSittingQuarter cur sched ms = some q) :
    q ∈ [1, 2, 3, 4] ∧ okQuarter cur sched ms q = true := by
  rw [findNC_eq_preferred] at h
  refine ⟨?_, List.find?_some h⟩
  have hm := List.mem_of_find?_eq_some h
  simp only [List.mem_cons, List.not_mem_nil, or_false] at hm ⊢
  tauto

theorem findNC_none_iff (cur : List Nat) (sched : Schedule) (ms : Nat) :
    findNonConsecutiveSittingQuarter cur sched ms = none ↔
      ∀ q ∈ [1, 2, 3, 4], okQuarter cur sched ms q = false := by
  rw [findNC_eq_preferred, List.find?_eq_none]
  constructor
  · intro h q hq
    have hm : q ∈ [1, 3, 2, 4] := by
      simp only [List.mem_cons, List.not_mem_nil, or_false] at hq ⊢
      tauto
    simpa using h q hm
  · intro h q hq
    have hm : q ∈ [1, 2, 3, 4] := by
      simp only [List.mem_cons, List.not_mem_nil, or_false] at hq ⊢
      tauto
    simp [h q hm]

/-- C2, as it actually is in the code: the returned quarter always satisfies
all three rejection rules (non-full, not already sat, not adjacent), and the
scan returns no assignment exactly when no quarter of `1..4` satisfies all
three rules — the adjacency rule is never relaxed, not even as a last
resort. -/
theorem findNonConsecutive_characterization (cur : List Nat) (sched : Schedule)
    (ms : Nat) :
    (∀ q, findNonConsecutiveSittingQuarter cur sched ms = some q →
      q ∈ [1, 2, 3, 4] ∧
      (sched.get q).length < ms ∧ q ∉ cur ∧
      ∀ sat ∈ cur, natDist sat q ≠ 1) ∧
    (findNonConsecutiveSittingQuarter cur sched ms = none ↔
      ∀ q ∈ [1, 2, 3, 4],
        ¬((sched.get q).length < ms ∧ q ∉ cur ∧ ∀ sat ∈ cur, natDist sat q ≠ 1)) := by
  have hok : ∀ q, okQuarter cur sched ms q = true ↔
      ((sched.get q).length < ms ∧ q ∉ cur ∧ ∀ sat ∈ cur, natDist sat q ≠ 1) := by
    intro q
    simp [okQuarter, isAdjacent, List.any_eq_true, and_assoc]
  constructor
  · intro q hq
    obtain ⟨hmem, hokq⟩ := findNC_some_ok hq
    exact ⟨hmem, (hok q).mp hokq⟩
  · rw [findNC_none_iff]
    constructor
    · intro h q hq hcon
      have := h q hq
      rw [← hok q] at hcon
      simp [hcon] at this
    · intro h q hq
      have := h q hq
      rw [← hok q] at this
      simpa using this

/-- Counterexample to C2 as stated: with a player already sitting quarters 1
and 3 and a per-quarter capacity of 1, quarter 2 is non-full and not yet sat,
yet the function returns no assignment (`-1`), because the adjacency rule is
never relaxed. -/
theorem findNonConsecutive_no_relaxation_counterexample :
    findNonConsecutiveSittingQuarter [1, 3] Schedule.empty 1 = none ∧
    (Schedule.empty.get 2).length < 1 ∧ (2 : Nat) ∉ [1, 3] := by
  decide

/-! ### The scheduler never produces adjacent sitting quarters (C9) -/

/-- No two (distinct) entries of the sitting-quarter list are adjacent. -/
def NonAdjacent (l : List Nat) : Prop :=
  l.Pairwise (fun a b => natDist a b ≠ 1)

/-- Invariant carried through every pass of `determineSittingSchedule`:
every player copy's sitting list is adjacency-free, and every name in a
schedule slot is accounted for by a player copy sitting that quarter. -/
structure SchedInv (st : SchedState) : Prop where
  pairwise : ∀ (j : Nat) (p : SPlayer), st.ps[j]? = some p → NonAdjacent p.sits
  corr : ∀ (q : Nat) (n : String), n ∈ st.sched.get q →
    ∃ (j : Nat) (p : SPlayer), st.ps[j]? = some p ∧ p.name = n ∧ q ∈ p.sits

theorem okQuarter_not_adjacent {cur : List Nat} {sched : Schedule}
    {ms q : Nat} (hok : okQuarter cur sched ms q = true) :
    ∀ sat ∈ cur, natDist sat q ≠ 1 := by
  simp only [okQuarter, Bool.and_eq_true, Bool.not_eq_true', List.any_eq_false,
    isAdjacent] at hok
  intro sat hsat
  have := hok.2 sat hsat
  simpa using this

/-- Core preservation step: a successful assignment keeps the invariant. -/
theorem schedInv_assign {st : SchedState} {i : Nat} {p : SPlayer} {q ms : Nat}
    (hp : st.ps[i]? = some p)
    (hfind : findNonConsecutiveSittingQuarter p.sits st.sched ms = some q)
    (hinv : SchedInv st) :
    SchedInv ⟨st.ps.set i { p with sits := p.sits ++ [q] },
              st.sched.push q p.name⟩ := by
  obtain ⟨hq14, hok⟩ := findNC_some_ok hfind
  have hadj := okQuarter_not_adjacent hok
  have hilen : i < st.ps.length := (List.getElem?_eq_some.mp hp).1
  have hq14' : 1 ≤ q ∧ q ≤ 4 := by
    simp only [List.mem_cons, List.not_mem_nil, or_false] at hq14
    omega
  constructor
  · intro j p' hp'
    rcases eq_or_ne i j with rfl | hne
    · rw [List.getElem?_set_self hilen] at hp'
      cases hp'
      refine List.pairwise_append.mpr ⟨hinv.pairwise i p hp, List.pairwise_singleton _ _, ?_⟩
      intro a ha b hb
      simp only [List.mem_singleton] at hb
      subst hb
      exact hadj a ha
    · rw [List.getElem?_set_ne hne] at hp'
      exact hinv.pairwise j p' hp'
  · intro q' n hn
    rw [Schedule.get_push] at hn
    have hwit_old : n ∈ st.sched.get q' →
        ∃ (j : Nat) (p' : SPlayer),
          (st.ps.set i { p with sits := p.sits ++ [q] })[j]? = some p' ∧
          p'.name = n ∧ q' ∈ p'.sits := by
      intro hmem
      obtain ⟨j, p'', hj, hname, hq'⟩ := hinv.corr q' n hmem
      rcases eq_or_ne i j with rfl | hne
      · rw [hp] at hj
        cases hj
        exact ⟨i, _, List.getElem?_set_self hilen, hname, List.mem_append_left _ hq'⟩
      · exact ⟨j, p'', by rw [List.getElem?_set_ne hne]; exact hj, hname, hq'⟩
    by_cases hcond : q' = q ∧ 1 ≤ q ∧ q ≤ 4
    · rw [if_pos hcond] at hn
      rcases List.mem_append.mp hn with hmem | hnew
      · exact hwit_old hmem
      · simp only [List.mem_singleton] at hnew
        subst hnew
        refine ⟨i, _, List.getElem?_set_self hilen, rfl, ?_⟩
        simp [hcond.1]
    · rw [if_neg hcond] at hn
      exact hwit_old hn

theorem schedInv_assignIdx (ms : Nat) (st : SchedState) (i : Nat)
    (hinv : SchedInv st) : SchedInv (assignIdx ms st i) := by
  unfold assignIdx
  split
  · exact hinv
  next p hp =>
    split
    · exact hinv
    next q hfind => exact schedInv_assign hp hfind hinv

theorem schedInv_minPassStep (ms k : Nat) (st : SchedState) (i : Nat)
    (hinv : SchedInv st) : SchedInv (minPassStep ms k st i) := by
  unfold minPassStep
  split
  · exact hinv
  next p hp =>
    split
    · exact hinv
    · exact schedInv_assignIdx ms st i hinv

theorem foldl_preserve {α β : Type} (P : β → Prop) (f : β → α → β)
    (hf : ∀ b a, P b → P (f b a)) :
    ∀ (l : List α) (b : β), P b → P (l.foldl f b) := by
  intro l
  induction l with
  | nil => intro b hb; exact hb
  | cons x xs ih => intro b hb; exact ih (f b x) (hf b x hb)

theorem schedInv_extraPass (ms ns ex : Nat) :
    ∀ (order : List Nat) (assigned : Nat) (st : SchedState),
      SchedInv st → SchedInv (extraPass ms ns ex order assigned st) := by
  intro order
  induction order with
  | nil => intro assigned st h; simpa [extraPass] using h
  | cons idx rest ih =>
    intro assigned st h
    unfold extraPass
    split
    · exact h
    split
    · exact ih assigned st h
    next p hp =>
      split
      · exact ih assigned st h
      split
      · exact ih assigned st h
      next q hfind => exact ih (assigned + 1) _ (schedInv_assign hp hfind h)

theorem mkCopies_sits_nil {players : List (String × Bool)} {p : SPlayer}
    (hp : p ∈ mkCopies players) : p.sits = [] := by
  unfold mkCopies at hp
  obtain ⟨nm, _, rfl⟩ := List.mem_map.mp hp
  rfl

/-- The invariant holds for the output of `determineSittingSchedule`,
whatever the roster, field size and shuffled orders. -/
theorem determineSittingSchedule_inv (players : List (String × Bool))
    (regShuffled : List SPlayer) (playersOnField quarters : Nat)
    (extraOrder : List Nat)
    (hreg : ∀ p ∈ regShuffled, p.sits = []) :
    SchedInv (determineSittingSchedule players regShuffled playersOnField
      quarters extraOrder) := by
  have hinit : SchedInv ⟨(mkCopies players).filter (·.mustRest) ++ regShuffled,
      Schedule.empty⟩ := by
    constructor
    · intro j p hp
      have hmem : p ∈ (mkCopies players).filter (·.mustRest) ++ regShuffled :=
        List.mem_iff_getElem?.mpr ⟨j, hp⟩
      have hnil : p.sits = [] := by
        rcases List.mem_append.mp hmem with hm | hm
        · exact mkCopies_sits_nil (List.mem_of_mem_filter hm)
        · exact hreg p hm
      rw [hnil]
      exact List.Pairwise.nil
    · intro q n hn
      rw [Schedule.get_empty] at hn
      exact absurd hn (List.not_mem_nil n)
  unfold determineSittingSchedule minPass mustRestPass
  apply schedInv_extraPass
  refine foldl_preserve SchedInv _ (fun b a hb => ?_) _ _ ?_
  · exact foldl_preserve SchedInv _ (fun b' a' hb' => schedInv_minPassStep _ _ b' a' hb') _ b hb
  · exact foldl_preserve SchedInv _ (fun b a hb => schedInv_assignIdx _ b a hb) _ _ hinit

/-! ### The roster names are untouched by the scheduler passes -/

theorem map_set_self {α β : Type} (f : α → β) {l : List α} {i : Nat} {a : α}
    (h : l[i]? = some a) : (l.map f).set i (f a) = l.map f := by
  apply List.ext_getElem?
  intro j
  rcases eq_or_ne i j with rfl | hne
  · rw [List.getElem?_set_self
      (by rw [List.length_map]; exact (List.getElem?_eq_some.mp h).1),
      List.getElem?_map, h]
    rfl
  · rw [List.getElem?_set_ne hne]

/-- Generic preservation: any projection of a player copy that ignores the
`sits` field is untouched by every scheduler pass (the passes only ever
append to `sittingQuarters`). -/
theorem proj_assignIdx {g : Type} (f : SPlayer → g)
    (hsits : ∀ (p : SPlayer) (s : List Nat), f { p with sits := s } = f p)
    (ms : Nat) (st : SchedState) (i : Nat) :
    (assignIdx ms st i).ps.map f = st.ps.map f := by
  unfold assignIdx
  split
  · rfl
  next p hp =>
    split
    · rfl
    next q hfind =>
      show (st.ps.set i { p with sits := p.sits ++ [q] }).map f = _
      rw [List.map_set, hsits]
      exact map_set_self f hp

theorem proj_minPassStep {g : Type} (f : SPlayer → g)
    (hsits : ∀ (p : SPlayer) (s : List Nat), f { p with sits := s } = f p)
    (ms k : Nat) (st : SchedState) (i : Nat) :
    (minPassStep ms k st i).ps.map f = st.ps.map f := by
  unfold minPassStep
  split
  · rfl
  · split
    · rfl
    · exact proj_assignIdx f hsits ms st i

theorem proj_extraPass {g : Type} (f : SPlayer → g)
    (hsits : ∀ (p : SPlayer) (s : List Nat), f { p with sits := s } = f p)
    (ms ns ex : Nat) :
    ∀ (order : List Nat) (assigned : Nat) (st : SchedState),
      (extraPass ms ns ex order assigned st).ps.map f = st.ps.map f := by
  intro order
  induction order with
  | nil => intro assigned st; rfl
  | cons idx rest ih =>
    intro assigned st
    unfold extraPass
    split
    · rfl
    split
    · exact ih assigned st
    next p hp =>
      split
      · exact ih assigned st
      split
      · exact ih assigned st
      next q hfind =>
        rw [ih]
        show (st.ps.set idx { p with sits := p.sits ++ [q] }).map f = _
        rw [List.map_set, hsits]
        exact map_set_self f hp

theorem proj_determineSittingSchedule {g : Type} (f : SPlayer → g)
    (hsits : ∀ (p : SPlayer) (s : List Nat), f { p with sits := s } = f p)
    (players : List (String × Bool)) (regShuffled : List SPlayer)
    (playersOnField quarters : Nat) (extraOrder : List Nat) :
    (determineSittingSchedule players regShuffled playersOnField quarters
      extraOrder).ps.map f =
    ((mkCopies players).filter (·.mustRest) ++ regShuffled).map f := by
  unfold determineSittingSchedule minPass mustRestPass
  rw [proj_extraPass f hsits]
  have base : ∀ (l : List Nat) (fs : SchedState → Nat → SchedState)
      (hfs : ∀ st i, (fs st i).ps.map f = st.ps.map f)
      (st : SchedState),
      ((l.foldl fs st).ps.map f) = st.ps.map f := by
    intro l
    induction l with
    | nil => intro fs hfs st; rfl
    | cons x xs ih => intro fs hfs st; rw [List.foldl_cons, ih fs hfs, hfs]
  rw [base _ _ (fun st i =>
        base _ _ (fun st' i' => proj_minPassStep f hsits _ i st' i') st),
      base _ _ (fun st i => proj_assignIdx f hsits _ st i)]

theorem names_determineSittingSchedule (players : List (String × Bool))
    (regShuffled : List SPlayer) (playersOnField quarters : Nat)
    (extraOrder : List Nat) :
    (determineSittingSchedule players regShuffled playersOnField quarters
      extraOrder).ps.map (·.name) =
    ((mkCopies players).filter (·.mustRest) ++ regShuffled).map (·.name) :=
  proj_determineSittingSchedule (·.name) (fun _ _ => rfl) players regShuffled
    playersOnField quarters extraOrder

/-! ### Schedule-level adjacency freedom and the validator's consecutive
check (C9) -/

/-- The index pairs flagged by the validator's consecutive-sitting loop
(`if sitting[i+1] === sitting[i] + 1`). -/
def consecPairs (l : List Nat) : List (Nat × Nat) :=
  (l.zip l.tail).filter (fun ab => ab.2 == ab.1 + 1)

/-- The `quartersSitting` list a player named `n` accumulates across the
quarter loop of `generateLineup`: the quarters `1..4`, in order, whose
schedule slot contains `n` (`generateQuarterLineup` pushes `quarter` for
every scheduled sitter). -/
def sittingListOf (sched : Schedule) (n : String) : List Nat :=
  [1, 2, 3, 4].filter (fun q => (sched.get q).contains n)

theorem filter_quarters_eq (p : Nat → Bool) :
    [1, 2, 3, 4].filter p =
      (if p 1 then [1] else []) ++ (if p 2 then [2] else []) ++
      (if p 3 then [3] else []) ++ (if p 4 then [4] else []) := by
  simp only [List.filter_cons, List.filter_nil]
  cases hp1 : p 1 <;> cases hp2 : p 2 <;> cases hp3 : p 3 <;> cases hp4 : p 4 <;> simp

theorem consecPairs_of_spread :
    ∀ (b1 b2 b3 b4 : Bool), (b1 && b2) = false → (b2 && b3) = false →
      (b3 && b4) = false →
      consecPairs ((if b1 then [1] else []) ++ (if b2 then [2] else []) ++
        (if b3 then [3] else []) ++ (if b4 then [4] else [])) = [] := by
  decide

theorem nodup_map_getElem?_ne {α β : Type} {f : α → β} {l : List α}
    (hnd : (l.map f).Nodup) {i j : Nat} {a b : α}
    (ha : l[i]? = some a) (hb : l[j]? = some b) (hij : i ≠ j) : f a ≠ f b := by
  have hmapa : (l.map f)[i]? = some (f a) := by rw [List.getElem?_map, ha]; rfl
  have hmapb : (l.map f)[j]? = some (f b) := by rw [List.getElem?_map, hb]; rfl
  rw [List.nodup_iff_getElem?_ne_getElem?] at hnd
  rcases Nat.lt_or_ge i j with h | h
  · have hjlen : j < (l.map f).length := by
      rw [List.length_map]; exact (List.getElem?_eq_some.mp hb).1
    intro hfeq
    exact hnd i j h hjlen (by rw [hmapa, hmapb, hfeq])
  · have := Nat.lt_of_le_of_ne h (Ne.symm hij)
    have hilen : i < (l.map f).length := by
      rw [List.length_map]; exact (List.getElem?_eq_some.mp ha).1
    intro hfeq
    exact hnd j i this hilen (by rw [hmapa, hmapb, hfeq])

/-- C9: every schedule produced by `determineSittingSchedule` is
adjacency-free — per player copy, the recorded sitting quarters are pairwise
non-adjacent; at the schedule level no (uniquely named) player sits two
adjacent quarters; and the validator's consecutive-sitting scan, applied to
the `quartersSitting` list the quarter loop derives from this schedule,
flags nothing. -/
theorem scheduler_no_adjacent_sitting (players : List (String × Bool))
    (regShuffled : List SPlayer) (playersOnField quarters : Nat)
    (extraOrder : List Nat)
    (hreg : ∀ p ∈ regShuffled, p.sits = [])
    (hnames : ((((mkCopies players).filter (·.mustRest)) ++ regShuffled).map
      (·.name)).Nodup) :
    (∀ p ∈ (determineSittingSchedule players regShuffled playersOnField
        quarters extraOrder).ps, NonAdjacent p.sits) ∧
    (∀ q : Nat, 1 ≤ q → q ≤ 3 → ∀ n : String,
      ¬(n ∈ (determineSittingSchedule players regShuffled playersOnField
          quarters extraOrder).sched.get q ∧
        n ∈ (determineSittingSchedule players regShuffled playersOnField
          quarters extraOrder).sched.get (q + 1))) ∧
    (∀ n : String, consecPairs (sittingListOf (determineSittingSchedule
      players regShuffled playersOnField quarters extraOrder).sched n) = []) := by
  set st := determineSittingSchedule players regShuffled playersOnField
    quarters extraOrder with hst
  have hinv := determineSittingSchedule_inv players regShuffled playersOnField
    quarters extraOrder hreg
  have hnd : (st.ps.map (·.name)).Nodup := by
    rw [hst, names_determineSittingSchedule]
    exact hnames
  have part1 : ∀ p ∈ st.ps, NonAdjacent p.sits := by
    intro p hp
    obtain ⟨j, hj⟩ := List.mem_iff_getElem?.mp hp
    exact hinv.pairwise j p hj
  have part2 : ∀ q : Nat, 1 ≤ q → q ≤ 3 → ∀ n : String,
      ¬(n ∈ st.sched.get q ∧ n ∈ st.sched.get (q + 1)) := by
    rintro q hq1 hq3 n ⟨hmem, hmem'⟩
    obtain ⟨j, p, hj, hname, hqsit⟩ := hinv.corr q n hmem
    obtain ⟨j', p', hj', hname', hqsit'⟩ := hinv.corr (q + 1) n hmem'
    rcases eq_or_ne j j' with rfl | hne
    · rw [hj] at hj'
      cases hj'
      have hpnad : NonAdjacent p.sits := hinv.pairwise j p hj
      have hsymm : Symmetric (fun a b : Nat => natDist a b ≠ 1) := by
        intro a b hab
        unfold natDist at hab ⊢
        omega
      have := hpnad.forall hsymm hqsit hqsit' (by omega)
      apply this
      unfold natDist
      omega
    · exact nodup_map_getElem?_ne hnd hj hj' hne (by rw [hname, hname'])
  refine ⟨part1, part2, ?_⟩
  intro n
  unfold sittingListOf
  rw [filter_quarters_eq]
  apply consecPairs_of_spread
  · rcases h1 : (st.sched.get 1).contains n <;>
      rcases h2 : (st.sched.get 2).contains n <;> simp
    exact part2 1 (by omega) (by omega) n
      ⟨List.elem_iff.mp h1, List.elem_iff.mp h2⟩
  · rcases h2 : (st.sched.get 2).contains n <;>
      rcases h3 : (st.sched.get 3).contains n <;> simp
    exact part2 2 (by omega) (by omega) n
      ⟨List.elem_iff.mp h2, List.elem_iff.mp h3⟩
  · rcases h3 : (st.sched.get 3).contains n <;>
      rcases h4 : (st.sched.get 4).contains n <;> simp
    exact part2 3 (by omega) (by omega) n
      ⟨List.elem_iff.mp h3, List.elem_iff.mp h4⟩

/-! ### Every `mustRest` player sits, given enough capacity (C6) -/

/-- Total number of names the schedule holds across the four quarters. -/
def totalSits (st : SchedState) : Nat :=
  (st.sched.get 1).length + (st.sched.get 2).length +
  (st.sched.get 3).length + (st.sched.get 4).length

/-- The sitting-quarter count recorded for the player at index `j`. -/
def sitLen (st : SchedState) (j : Nat) : Nat :=
  match st.ps[j]? with
  | some p => p.sits.length
  | none => 0

theorem foldl_range_inv {b : Type} (f : b → Nat → b) (P : Nat → b → Prop) :
    ∀ (n : Nat) (st : b), P 0 st →
      (∀ (k : Nat) (st' : b), k < n → P k st' → P (k + 1) (f st' k)) →
      P n ((List.range n).foldl f st) := by
  intro n
  induction n with
  | zero => intro st h0 _; exact h0
  | succ m ih =>
    intro st h0 hstep
    rw [List.range_succ, List.foldl_append]
    exact hstep m _ (Nat.lt_succ_self m)
      (ih st h0 (fun k st' hk => hstep k st' (Nat.lt_succ_of_lt hk)))

/-- A player with no sitting quarters yet always receives one while the
schedule still has spare capacity. -/
theorem findNC_nil_isSome {sched : Schedule} {ms : Nat}
    (hsp : (sched.get 1).length + (sched.get 2).length +
      (sched.get 3).length + (sched.get 4).length < 4 * ms) :
    (findNonConsecutiveSittingQuarter [] sched ms).isSome := by
  cases hf : findNonConsecutiveSittingQuarter [] sched ms with
  | some q => rfl
  | none =>
    exfalso
    rw [findNC_none_iff] at hf
    have h1 := hf 1 (by simp)
    have h2 := hf 2 (by simp)
    have h3 := hf 3 (by simp)
    have h4 := hf 4 (by simp)
    rw [okQuarter_nil] at h1 h2 h3 h4
    simp only [decide_eq_false_iff_not, Nat.not_lt] at h1 h2 h3 h4
    omega

theorem totalSits_push {st : SchedState} {q : Nat} (hq : q ∈ [1, 2, 3, 4])
    (ps' : List SPlayer) (n : String) :
    totalSits ⟨ps', st.sched.push q n⟩ = totalSits st + 1 := by
  have hq' : 1 ≤ q ∧ q ≤ 4 := by
    simp only [List.mem_cons, List.not_mem_nil, or_false] at hq
    omega
  unfold totalSits
  simp only
  rw [Schedule.get_push, Schedule.get_push, Schedule.get_push, Schedule.get_push]
  split_ifs <;> simp <;> omega

/-- Invariant for the `mustRest` pass: the first `k` players processed all
hold at least one sitting quarter, the schedule holds at most `k` names, and
the unprocessed players are still their initial records. -/
def MRInv (base : List SPlayer) (k : Nat) (st : SchedState) : Prop :=
  (∀ j, j < k → 1 ≤ sitLen st j) ∧
  totalSits st ≤ k ∧
  (∀ j, k ≤ j → st.ps[j]? = base[j]?)

theorem mrInv_step {base : List SPlayer} {k : Nat} {st' : SchedState} {ms : Nat}
    (hbase : ∀ p ∈ base, p.sits = []) (hklen : k < base.length)
    (hcap : k < 4 * ms) (hinv : MRInv base k st') :
    MRInv base (k + 1) (assignIdx ms st' k) := by
  obtain ⟨hdone, htot, hfresh⟩ := hinv
  have hp : base[k]? = some base[k] := List.getElem?_eq_getElem hklen
  set p := base[k] with hpdef
  have hpst : st'.ps[k]? = some p := by rw [hfresh k (Nat.le_refl k), hp]
  have hpnil : p.sits = [] := hbase p (List.mem_iff_getElem?.mpr ⟨k, hp⟩)
  have hcap' : (st'.sched.get 1).length + (st'.sched.get 2).length +
      (st'.sched.get 3).length + (st'.sched.get 4).length < 4 * ms := by
    have : totalSits st' < 4 * ms := Nat.lt_of_le_of_lt htot hcap
    unfold totalSits at this
    exact this
  have hsome : (findNonConsecutiveSittingQuarter p.sits st'.sched ms).isSome := by
    rw [hpnil]
    exact findNC_nil_isSome hcap'
  obtain ⟨q, hq⟩ := Option.isSome_iff_exists.mp hsome
  have hq14 := (findNC_some_ok hq).1
  have hkst : k < st'.ps.length := (List.getElem?_eq_some.mp hpst).1
  have hred : assignIdx ms st' k =
      ⟨st'.ps.set k { p with sits := p.sits ++ [q] }, st'.sched.push q p.name⟩ := by
    simp only [assignIdx, hpst, hq]
  rw [hred]
  refine ⟨?_, ?_, ?_⟩
  · intro j hj
    rcases eq_or_ne j k with rfl | hne
    · unfold sitLen
      simp only [List.getElem?_set_self hkst]
      simp
    · have hjk : j < k := by omega
      have := hdone j hjk
      unfold sitLen at this ⊢
      simp only [List.getElem?_set_ne (Ne.symm hne)]
      exact this
  · rw [totalSits_push hq14]
    omega
  · intro j hj
    have hne : k ≠ j := by omega
    simp only [List.getElem?_set_ne hne]
    exact hfresh j (by omega)

theorem mustRestPass_guarantees (ms : Nat) (base : List SPlayer)
    (hbase : ∀ p ∈ base, p.sits = []) (m : Nat)
    (hm : m ≤ base.length) (hcap : m ≤ 4 * ms) :
    ∀ j, j < m →
      1 ≤ sitLen (mustRestPass ms m ⟨base, Schedule.empty⟩) j := by
  have h0 : MRInv base 0 ⟨base, Schedule.empty⟩ := by
    refine ⟨fun j hj => absurd hj (Nat.not_lt_zero j), ?_, fun j _ => rfl⟩
    unfold totalSits
    simp [Schedule.get_empty]
  have h := foldl_range_inv (assignIdx ms) (MRInv base) m ⟨base, Schedule.empty⟩
    h0 (fun k st' hk hinv =>
      mrInv_step hbase (Nat.lt_of_lt_of_le hk hm) (Nat.lt_of_lt_of_le hk hcap) hinv)
  exact fun j hj => h.1 j hj

/-- The identity of a player copy: the fields the scheduler never writes. -/
def idTag (p : SPlayer) : String × Bool := (p.name, p.mustRest)

/-- No pass ever removes a sitting quarter: `sitLen` is monotone. -/
theorem sitLen_assignIdx (ms : Nat) (st : SchedState) (i j : Nat) :
    sitLen st j ≤ sitLen (assignIdx ms st i) j := by
  unfold assignIdx
  split
  · exact Nat.le_refl _
  next p hp =>
    split
    · exact Nat.le_refl _
    next q hfind =>
      unfold sitLen
      simp only
      rcases eq_or_ne i j with rfl | hne
      · rw [hp, List.getElem?_set_self (List.getElem?_eq_some.mp hp).1]
        simp
      · rw [List.getElem?_set_ne hne]

theorem sitLen_minPassStep (ms k : Nat) (st : SchedState) (i j : Nat) :
    sitLen st j ≤ sitLen (minPassStep ms k st i) j := by
  unfold minPassStep
  split
  · exact Nat.le_refl _
  · split
    · exact Nat.le_refl _
    · exact sitLen_assignIdx ms st i j

theorem sitLen_extraPass (ms ns ex : Nat) :
    ∀ (order : List Nat) (assigned : Nat) (st : SchedState) (j : Nat),
      sitLen st j ≤ sitLen (extraPass ms ns ex order assigned st) j := by
  intro order
  induction order with
  | nil => intro assigned st j; exact Nat.le_refl _
  | cons idx rest ih =>
    intro assigned st j
    unfold extraPass
    split
    · exact Nat.le_refl _
    split
    · exact ih assigned st j
    next p hp =>
      split
      · exact ih assigned st j
      split
      · exact ih assigned st j
      next q hfind =>
        refine Nat.le_trans ?_ (ih (assigned + 1) _ j)
        unfold sitLen
        simp only
        rcases eq_or_ne idx j with rfl | hne
        · rw [hp, List.getElem?_set_self (List.getElem?_eq_some.mp hp).1]
          simp
        · rw [List.getElem?_set_ne hne]

theorem sitLen_foldl (l : List Nat) (f : SchedState → Nat → SchedState)
    (hf : ∀ (st : SchedState) (i j : Nat), sitLen st j ≤ sitLen (f st i) j) :
    ∀ (st : SchedState) (j : Nat), sitLen st j ≤ sitLen (l.foldl f st) j := by
  induction l with
  | nil => intro st j; exact Nat.le_refl _
  | cons x xs ih =>
    intro st j
    rw [List.foldl_cons]
    exact Nat.le_trans (hf st x j) (ih (f st x) j)

/-- C6, scheduler-level guarantee: whenever the number of `mustRest` players
does not exceed the total sitting capacity `(roster - fieldSize) * 4`, every
`mustRest` player leaves `determineSittingSchedule` with at least one
sitting quarter.  (The counterexample theorem shows the guarantee genuinely
needs the capacity bound: with roster = field size an accepted lineup can
leave a `mustRest` player playing all quarters, because the validator has no
`mustRest` rule.) -/
theorem mustRest_players_sit (players : List (String × Bool))
    (regShuffled : List SPlayer) (playersOnField quarters : Nat)
    (extraOrder : List Nat)
    (hreg : regShuffled.Perm ((mkCopies players).filter (fun p => !p.mustRest)))
    (hcap : ((mkCopies players).filter (·.mustRest)).length ≤
      4 * (players.length - playersOnField)) :
    ∀ p ∈ (determineSittingSchedule players regShuffled playersOnField
      quarters extraOrder).ps, p.mustRest = true → 1 ≤ p.sits.length := by
  intro p hp hmr
  obtain ⟨j, hj⟩ := List.mem_iff_getElem?.mp hp
  set base := (mkCopies players).filter (·.mustRest) ++ regShuffled with hbasedef
  set m := ((mkCopies players).filter (·.mustRest)).length with hmdef
  -- the final copy at index j carries the tag of the initial copy there
  have htags := proj_determineSittingSchedule idTag (fun _ _ => rfl)
    players regShuffled playersOnField quarters extraOrder
  have hjtag : base[j]?.map idTag = some (idTag p) := by
    have h1 : ((determineSittingSchedule players regShuffled playersOnField
        quarters extraOrder).ps.map idTag)[j]? = some (idTag p) := by
      rw [List.getElem?_map, hj]
      rfl
    rw [htags, List.getElem?_map] at h1
    exact h1
  obtain ⟨b, hb, hbtag⟩ : ∃ b, base[j]? = some b ∧ idTag b = idTag p := by
    cases hbj : base[j]? with
    | none => rw [hbj] at hjtag; exact absurd hjtag (by simp)
    | some b =>
      rw [hbj] at hjtag
      exact ⟨b, rfl, by simpa using hjtag⟩
  have hbmr : b.mustRest = true := by
    have : (idTag b).2 = (idTag p).2 := by rw [hbtag]
    unfold idTag at this
    simp only at this
    rw [this, hmr]
  -- a mustRest copy can only live at an index below m
  have hjm : j < m := by
    by_contra hge
    push_neg at hge
    have : base[j]? = regShuffled[j - m]? := by
      rw [hbasedef, List.getElem?_append_right (by omega)]
    rw [this] at hb
    have hbmem : b ∈ regShuffled := List.mem_iff_getElem?.mpr ⟨j - m, hb⟩
    have := hreg.mem_iff.mp hbmem
    have := List.of_mem_filter this
    simp [hbmr] at this
  -- after the mustRest pass the copy at j sits at least once, and the later
  -- passes never remove sits
  have hbase_nil : ∀ b' ∈ base, b'.sits = [] := by
    intro b' hb'
    rcases List.mem_append.mp hb' with hm' | hm'
    · exact mkCopies_sits_nil (List.mem_of_mem_filter hm')
    · exact mkCopies_sits_nil (List.mem_of_mem_filter (hreg.mem_iff.mp hm'))
  have hmlen : m ≤ base.length := by
    rw [hbasedef, List.length_append, hmdef]
    omega
  have h1 := mustRestPass_guarantees (players.length - playersOnField) base
    hbase_nil m hmlen hcap j hjm
  have h2 : sitLen (mustRestPass (players.length - playersOnField) m
      ⟨base, Schedule.empty⟩) j ≤
      sitLen (determineSittingSchedule players regShuffled playersOnField
        quarters extraOrder) j := by
    unfold determineSittingSchedule minPass
    refine Nat.le_trans ?_ (sitLen_extraPass _ _ _ _ _ _ j)
    exact sitLen_foldl _ _ (fun st i j' =>
      sitLen_foldl _ _ (fun st' i' j'' => sitLen_minPassStep _ i st' i' j'') st j') _ j
  have hfinal : sitLen (determineSittingSchedule players regShuffled
      playersOnField quarters extraOrder) j = p.sits.length := by
    unfold sitLen
    rw [hj]
  omega

/-! ### The concrete 10-player / 7-on-field / 4-quarter distribution (C3)

With `maxSitting = 3` and ten players that all start with no sits, the two
fill passes are first-fit over the preference order `[1, 3, 2, 4]`: the
`j`-th player processed receives quarter `fq j`, and the schedule counts
follow `cnt`. -/

/-- Quarter handed to the `j`-th fresh player by the fill passes. -/
def fq (j : Nat) : Nat :=
  if j < 3 then 1 else if j < 6 then 3 else if j < 9 then 2 else 4

/-- Schedule-slot sizes after `k` fresh players have been filled in. -/
def cnt (k q : Nat) : Nat :=
  if q = 1 then min k 3 else if q = 2 then min (k - 6) 3
  else if q = 3 then min (k - 3) 3 else if q = 4 then min (k - 9) 3 else 0

theorem fq_bounds (j : Nat) : 1 ≤ fq j ∧ fq j ≤ 4 := by
  unfold fq
  split_ifs <;> omega

theorem cnt_step {k : Nat} (hk : k < 10) (q : Nat) :
    cnt (k + 1) q = cnt k q + (if q = fq k then 1 else 0) := by
  unfold cnt fq
  split_ifs <;> omega

/-- State after the fill passes have processed `k` fresh players. -/
def FillInv (bs : List SPlayer) (k : Nat) (st : SchedState) : Prop :=
  (∀ j : Nat, st.ps[j]? =
    (bs[j]?).map (fun b => if j < k then { b with sits := [fq j] } else b)) ∧
  (∀ q : Nat, (st.sched.get q).length = cnt k q)

theorem findNC_nil_fill (sched : Schedule) (l1 l2 l3 l4 : Nat)
    (h1 : (sched.get 1).length = l1) (h2 : (sched.get 2).length = l2)
    (h3 : (sched.get 3).length = l3) (h4 : (sched.get 4).length = l4) :
    findNonConsecutiveSittingQuarter [] sched 3 =
      if l1 < 3 then some 1 else if l3 < 3 then some 3
      else if l2 < 3 then some 2 else if l4 < 3 then some 4 else none := by
  have e1 : okQuarter [] sched 3 1 = decide (l1 < 3) := by rw [okQuarter_nil, h1]
  have e2 : okQuarter [] sched 3 2 = decide (l2 < 3) := by rw [okQuarter_nil, h2]
  have e3 : okQuarter [] sched 3 3 = decide (l3 < 3) := by rw [okQuarter_nil, h3]
  have e4 : okQuarter [] sched 3 4 = decide (l4 < 3) := by rw [okQuarter_nil, h4]
  rw [findNC_eq_preferred]
  simp only [List.find?_cons, e1, e2, e3, e4]
  by_cases c1 : l1 < 3 <;> by_cases c2 : l2 < 3 <;>
    by_cases c3 : l3 < 3 <;> by_cases c4 : l4 < 3 <;>
    simp [c1, c2, c3, c4]

theorem fillInv_init (bs : List SPlayer) :
    FillInv bs 0 ⟨bs, Schedule.empty⟩ := by
  constructor
  · intro j
    simp
  · intro q
    unfold cnt
    simp only [Schedule.get_empty, List.length_nil]
    split_ifs <;> simp

theorem fillInv_step {bs : List SPlayer} {k : Nat} {st : SchedState}
    (hnil : ∀ b ∈ bs, b.sits = []) (hlen : 10 ≤ bs.length)
    (hk : k < 10) (hinv : FillInv bs k st) :
    FillInv bs (k + 1) (assignIdx 3 st k) := by
  obtain ⟨hps, hsch⟩ := hinv
  have hklen : k < bs.length := by omega
  have hbk : bs[k]? = some bs[k] := List.getElem?_eq_getElem hklen
  have hknil : (bs[k]).sits = [] := hnil _ (List.getElem_mem hklen)
  have hpk : st.ps[k]? = some bs[k] := by
    rw [hps k, hbk]
    simp
  have hfind : findNonConsecutiveSittingQuarter (bs[k]).sits st.sched 3 =
      some (fq k) := by
    rw [hknil, findNC_nil_fill st.sched _ _ _ _ (hsch 1) (hsch 2) (hsch 3) (hsch 4)]
    interval_cases k <;> simp [cnt, fq]
  have hred : assignIdx 3 st k =
      ⟨st.ps.set k { bs[k] with sits := (bs[k]).sits ++ [fq k] },
       st.sched.push (fq k) (bs[k]).name⟩ := by
    simp only [assignIdx, hpk, hfind]
  rw [hred]
  have hkst : k < st.ps.length := (List.getElem?_eq_some.mp hpk).1
  constructor
  · intro j
    rcases eq_or_ne j k with rfl | hne
    · rw [List.getElem?_set_self hkst, hbk]
      simp [hknil, Nat.lt_succ_self]
    · rw [List.getElem?_set_ne (Ne.symm hne), hps j]
      have : j < k ↔ j < k + 1 := by omega
      by_cases hj : j < k
      · simp [hj, this.mp hj]
      · have hj' : ¬ j < k + 1 := by omega
        simp [hj, hj']
  · intro q
    have hfqb := fq_bounds k
    rw [Schedule.get_push]
    rw [cnt_step hk q]
    by_cases hq : q = fq k
    · rw [if_pos ⟨hq, hfqb⟩, if_pos hq, List.length_append, hsch q]
      simp
    · rw [if_neg ?_, if_neg hq, hsch q]
      · simp
      · intro hc
        exact hq hc.1

theorem fill_after_mustRestPass {bs : List SPlayer} {m : Nat}
    (hnil : ∀ b ∈ bs, b.sits = []) (hlen : 10 ≤ bs.length) (hm : m ≤ 10) :
    FillInv bs m (mustRestPass 3 m ⟨bs, Schedule.empty⟩) := by
  unfold mustRestPass
  exact foldl_range_inv (assignIdx 3) (FillInv bs) m _ (fillInv_init bs)
    (fun k st' hk hinv => fillInv_step hnil hlen (by omega) hinv)

theorem fill_after_minPass {bs : List SPlayer} {m : Nat} {st : SchedState}
    (hnil : ∀ b ∈ bs, b.sits = []) (hlen : 10 ≤ bs.length) (hm : m ≤ 10)
    (hinv : FillInv bs m st) :
    FillInv bs 10 (minPass 3 1 10 st) := by
  unfold minPass
  have hrange1 : List.range 1 = [0] := rfl
  rw [hrange1]
  simp only [List.foldl_cons, List.foldl_nil]
  have h := foldl_range_inv (minPassStep 3 0) (fun j st' => FillInv bs (max m j) st')
    10 st (by simpa using hinv) ?_
  · simpa [Nat.max_eq_right hm] using h
  · intro k st' hk hinv'
    obtain ⟨hps, hsch⟩ := hinv'
    by_cases hkm : k < m
    · -- the player already sits once: the pass skips it
      have hklen : k < bs.length := by omega
      have hbk : bs[k]? = some bs[k] := List.getElem?_eq_getElem hklen
      have hlt : k < max m k := by omega
      have hpk : st'.ps[k]? = some { bs[k] with sits := [fq k] } := by
        rw [hps k, hbk]
        simp [hlt]
      have hmax : max m (k + 1) = max m k := by omega
      rw [hmax]
      unfold minPassStep
      rw [hpk]
      simp
      exact ⟨hps, hsch⟩
    · -- fresh player: the pass assigns like the first pass did
      have hklen : k < bs.length := by omega
      have hbk : bs[k]? = some bs[k] := List.getElem?_eq_getElem hklen
      have hke : max m k = k := by omega
      rw [hke] at hps hsch
      have hpk : st'.ps[k]? = some bs[k] := by
        rw [hps k, hbk]
        simp
      have hstep := fillInv_step hnil hlen (by omega) ⟨hps, hsch⟩
      have hmax : max m (k + 1) = k + 1 := by omega
      rw [hmax]
      unfold minPassStep
      rw [hpk]
      have hzero : (bs[k]).sits.length = 0 := by
        rw [hnil _ (List.getElem_mem hklen)]
        rfl
      simp [hzero]
      exact hstep

/-- State during the extra-sit pass: the members of `E` (all of them sitting
quarter 1 or 2) have received their second sit in quarter 4. -/
def ExtInv (bs : List SPlayer) (E : Finset Nat) (st : SchedState) : Prop :=
  (∀ j : Nat, st.ps[j]? = (bs[j]?).map (fun b =>
    if j ∈ E then { b with sits := [fq j, 4] } else { b with sits := [fq j] })) ∧
  ((st.sched.get 1).length = 3) ∧ ((st.sched.get 2).length = 3) ∧
  ((st.sched.get 3).length = 3) ∧ ((st.sched.get 4).length = 1 + E.card) ∧
  (∀ j ∈ E, j < 10 ∧ (fq j = 1 ∨ fq j = 2))

theorem extInv_of_fill {bs : List SPlayer} {st : SchedState}
    (hlen : bs.length = 10) (hinv : FillInv bs 10 st) : ExtInv bs ∅ st := by
  obtain ⟨hps, hsch⟩ := hinv
  refine ⟨?_, ?_, ?_, ?_, ?_, ?_⟩
  · intro j
    rw [hps j]
    by_cases hj : j < 10
    · simp [hj]
    · have hnone : bs[j]? = none := List.getElem?_eq_none (by omega)
      rw [hnone]
      rfl
  · rw [hsch 1]; rfl
  · rw [hsch 2]; rfl
  · rw [hsch 3]; rfl
  · rw [hsch 4]; rfl
  · intro j hj
    exact absurd hj (Finset.not_mem_empty j)

theorem findNC_one_sit (sched : Schedule) (x : Nat) (hx1 : 1 ≤ x) (hx4 : x ≤ 4)
    (h1 : ¬ (sched.get 1).length < 3) (h2 : ¬ (sched.get 2).length < 3)
    (h3 : ¬ (sched.get 3).length < 3) (h4 : (sched.get 4).length < 3) :
    findNonConsecutiveSittingQuarter [x] sched 3 =
      if x = 1 ∨ x = 2 then some 4 else none := by
  rw [findNC_eq_preferred]
  interval_cases x <;>
    simp [List.find?_cons, okQuarter, isAdjacent, natDist, h1, h2, h3, h4]

theorem extraPass_fills {bs : List SPlayer} (hlen : bs.length = 10) :
    ∀ (order : List Nat) (E : Finset Nat) (st : SchedState),
      ExtInv bs E st → E.card ≤ 2 → order.Nodup →
      (∀ i ∈ order, i < 10 ∧ i ∉ E) →
      (2 - E.card ≤ (order.filter (fun i => fq i == 1 || fq i == 2)).length) →
      ∃ E', ExtInv bs E' (extraPass 3 2 2 order E.card st) ∧ E'.card = 2 := by
  intro order
  induction order with
  | nil =>
    intro E st hinv hcard _ _ hfilt
    simp only [List.filter_nil, List.length_nil] at hfilt
    have : E.card = 2 := by omega
    exact ⟨E, by simpa [extraPass] using hinv, this⟩
  | cons i rest ih =>
    intro E st hinv hcard hnd hmem hfilt
    obtain ⟨hps, hs1, hs2, hs3, hs4, hE⟩ := hinv
    by_cases hstop : E.card = 2
    · refine ⟨E, ?_, hstop⟩
      unfold extraPass
      rw [if_pos (by omega)]
      exact ⟨hps, hs1, hs2, hs3, hs4, hE⟩
    · have hlt : E.card < 2 := by omega
      obtain ⟨hi10, hiE⟩ := hmem i (List.mem_cons_self i rest)
      have hbi : bs[i]? = some bs[i] := List.getElem?_eq_getElem (by omega)
      have hpi : st.ps[i]? = some { bs[i] with sits := [fq i] } := by
        rw [hps i, hbi]
        simp [hiE]
      have hfind : findNonConsecutiveSittingQuarter [fq i] st.sched 3 =
          if fq i = 1 ∨ fq i = 2 then some 4 else none :=
        findNC_one_sit st.sched (fq i) (fq_bounds i).1 (fq_bounds i).2
          (by rw [hs1]; omega) (by rw [hs2]; omega)
          (by rw [hs3]; omega) (by rw [hs4]; omega)
      by_cases hfq : fq i = 1 ∨ fq i = 2
      · -- the head player receives quarter 4 as a second sit
        have hfind4 : findNonConsecutiveSittingQuarter [fq i] st.sched 3 =
            some 4 := by rw [hfind, if_pos hfq]
        have hred : extraPass 3 2 2 (i :: rest) E.card st =
            extraPass 3 2 2 rest (E.card + 1)
              ⟨st.ps.set i { bs[i] with sits := [fq i, 4] },
               st.sched.push 4 (bs[i]).name⟩ := by
          unfold extraPass
          rw [if_neg (show ¬ 2 ≤ E.card by omega)]
          simp only [hpi, hfind4]
          norm_num
          rw [extraPass.eq_def]
        rw [hred]
        have hcardins : (insert i E).card = E.card + 1 :=
          Finset.card_insert_of_not_mem hiE
        have hext' : ExtInv bs (insert i E)
            ⟨st.ps.set i { bs[i] with sits := [fq i, 4] },
             st.sched.push 4 (bs[i]).name⟩ := by
          refine ⟨?_, ?_, ?_, ?_, ?_, ?_⟩
          · intro j
            rcases eq_or_ne j i with rfl | hne
            · rw [List.getElem?_set_self (List.getElem?_eq_some.mp hpi).1, hbi]
              simp
            · rw [List.getElem?_set_ne (Ne.symm hne), hps j]
              by_cases hjE : j ∈ E <;>
                simp [hjE, Finset.mem_insert, hne]
          · rw [Schedule.get_push]
            simp [hs1]
          · rw [Schedule.get_push]
            simp [hs2]
          · rw [Schedule.get_push]
            simp [hs3]
          · rw [Schedule.get_push, if_pos (by norm_num)]
            rw [List.length_append, hs4, hcardins]
            simp
            omega
          · intro j hj
            rcases Finset.mem_insert.mp hj with rfl | hjE
            · exact ⟨hi10, hfq⟩
            · exact hE j hjE
        rw [show E.card + 1 = (insert i E).card from hcardins.symm]
        refine ih (insert i E) _ hext' (by omega) hnd.of_cons ?_ ?_
        · intro i' hi'
          obtain ⟨h10, hE'⟩ := hmem i' (List.mem_cons_of_mem i hi')
          refine ⟨h10, ?_⟩
          simp only [Finset.mem_insert]
          rintro (rfl | hc)
          · exact (List.nodup_cons.mp hnd).1 hi'
          · exact hE' hc
        · have hpred : (fun i' => fq i' == 1 || fq i' == 2) i = true := by
            rcases hfq with h | h <;> simp [h]
          rw [List.filter_cons, if_pos hpred, List.length_cons] at hfilt
          rw [hcardins]
          omega
      · -- no quarter available for the head player: it is skipped
        have hfind0 : findNonConsecutiveSittingQuarter [fq i] st.sched 3 =
            none := by rw [hfind, if_neg hfq]
        have hred : extraPass 3 2 2 (i :: rest) E.card st =
            extraPass 3 2 2 rest E.card st := by
          unfold extraPass
          rw [if_neg (show ¬ 2 ≤ E.card by omega)]
          simp only [hpi, hfind0]
          norm_num
          rw [extraPass.eq_def]
        rw [hred]
        refine ih E st ⟨hps, hs1, hs2, hs3, hs4, hE⟩ hcard hnd.of_cons ?_ ?_
        · intro i' hi'
          exact hmem i' (List.mem_cons_of_mem i hi')
        · have hpred : (fun i' => fq i' == 1 || fq i' == 2) i = false := by
            simp only [not_or] at hfq
            simp [hfq.1, hfq.2]
          rw [List.filter_cons, if_neg (by simp [hpred])] at hfilt
          exact hfilt

theorem countP_mem_range (E : Finset Nat) (n : Nat) (hE : ∀ j ∈ E, j < n) :
    (List.range n).countP (fun j => decide (j ∈ E)) = E.card := by
  rw [List.countP_eq_length_filter]
  have hnd : ((List.range n).filter (fun j => decide (j ∈ E))).Nodup :=
    (List.nodup_range n).filter _
  rw [← List.toFinset_card_of_nodup hnd]
  congr 1
  ext x
  simp only [List.mem_toFinset, List.mem_filter, List.mem_range,
    decide_eq_true_eq]
  exact ⟨fun h => h.2, fun h => ⟨hE x h, h⟩⟩

/-- C3: with 10 available players, field size 7 and Q = 4 — whatever the
`mustRest` flags and whatever orders the shuffles produce — the scheduler
hands out 12 sitting slots: exactly 8 players sit exactly once, exactly 2
players sit exactly twice, no player's sits are adjacent, and every quarter
holds exactly `10 - 7 = 3` sitters. -/
theorem ten_player_sitting_distribution (players : List (String × Bool))
    (regShuffled : List SPlayer) (extraOrder : List Nat)
    (hlen : players.length = 10)
    (hreg : regShuffled.Perm ((mkCopies players).filter (fun p => !p.mustRest)))
    (hext : extraOrder.Perm (List.range 10)) :
    ((determineSittingSchedule players regShuffled 7 4 extraOrder).ps.filter
        (fun p => p.sits.length == 1)).length = 8 ∧
    ((determineSittingSchedule players regShuffled 7 4 extraOrder).ps.filter
        (fun p => p.sits.length == 2)).length = 2 ∧
    (∀ p ∈ (determineSittingSchedule players regShuffled 7 4 extraOrder).ps,
      NonAdjacent p.sits) ∧
    (∀ q : Nat, 1 ≤ q → q ≤ 4 →
      ((determineSittingSchedule players regShuffled 7 4
        extraOrder).sched.get q).length = 3) := by
  have hcoplen : (mkCopies players).length = 10 := by
    unfold mkCopies
    rw [List.length_map, hlen]
  have hsplit : ((mkCopies players).filter (·.mustRest)).length +
      regShuffled.length = 10 := by
    have hp := (List.filter_append_perm (·.mustRest) (mkCopies players)).length_eq
    rw [List.length_append] at hp
    have hr : regShuffled.length =
        ((mkCopies players).filter (fun x => !x.mustRest)).length :=
      hreg.length_eq
    omega
  have hbaselen : ((mkCopies players).filter (·.mustRest) ++
      regShuffled).length = 10 := by
    rw [List.length_append]
    omega
  have hmle : ((mkCopies players).filter (·.mustRest)).length ≤ 10 := by
    have := List.length_filter_le (·.mustRest) (mkCopies players)
    omega
  have hbnil : ∀ b ∈ (mkCopies players).filter (·.mustRest) ++ regShuffled,
      b.sits = [] := by
    intro b hb
    rcases List.mem_append.mp hb with hm | hm
    · exact mkCopies_sits_nil (List.mem_of_mem_filter hm)
    · exact mkCopies_sits_nil (List.mem_of_mem_filter (hreg.mem_iff.mp hm))
  have hunf : determineSittingSchedule players regShuffled 7 4 extraOrder =
      extraPass 3 2 2 extraOrder 0
        (minPass 3 1 10 (mustRestPass 3
          ((mkCopies players).filter (·.mustRest)).length
          ⟨(mkCopies players).filter (·.mustRest) ++ regShuffled,
           Schedule.empty⟩)) := by
    unfold determineSittingSchedule
    rw [hlen]
  have fill2 : FillInv ((mkCopies players).filter (·.mustRest) ++ regShuffled)
      10 (minPass 3 1 10 (mustRestPass 3
        ((mkCopies players).filter (·.mustRest)).length
        ⟨(mkCopies players).filter (·.mustRest) ++ regShuffled,
         Schedule.empty⟩)) :=
    fill_after_minPass hbnil (by omega) hmle
      (fill_after_mustRestPass hbnil (by omega) hmle)
  have ext0 := extInv_of_fill hbaselen fill2
  have hmem0 : ∀ i ∈ extraOrder, i < 10 ∧ i ∉ (∅ : Finset Nat) := by
    intro i hi
    exact ⟨List.mem_range.mp (hext.mem_iff.mp hi), Finset.not_mem_empty i⟩
  have hfilt0 : 2 - (∅ : Finset Nat).card ≤
      (extraOrder.filter (fun i => fq i == 1 || fq i == 2)).length := by
    rw [(hext.filter _).length_eq]
    have h6 : ((List.range 10).filter
        (fun i => fq i == 1 || fq i == 2)).length = 6 := by decide
    rw [h6]
    simp
  obtain ⟨E', hExt, hcard2⟩ := extraPass_fills hbaselen extraOrder ∅ _ ext0
    (by simp) (hext.nodup_iff.mpr (List.nodup_range 10)) hmem0 hfilt0
  rw [show (∅ : Finset Nat).card = 0 from rfl] at hExt
  rw [hunf]
  obtain ⟨hps, hs1, hs2, hs3, hs4, hEmem⟩ := hExt
  -- the final copies, as an explicit image of `range 10`
  have hlist : (extraPass 3 2 2 extraOrder 0
      (minPass 3 1 10 (mustRestPass 3
        ((mkCopies players).filter (·.mustRest)).length
        ⟨(mkCopies players).filter (·.mustRest) ++ regShuffled,
         Schedule.empty⟩))).ps =
      (List.range 10).map (fun j =>
        if j ∈ E' then
          { (((mkCopies players).filter (·.mustRest) ++
              regShuffled).getD j ⟨"", false, []⟩) with sits := [fq j, 4] }
        else
          { (((mkCopies players).filter (·.mustRest) ++
              regShuffled).getD j ⟨"", false, []⟩) with sits := [fq j] }) := by
    apply List.ext_getElem?
    intro j
    rw [hps j, List.getElem?_map]
    by_cases hj : j < 10
    · rw [List.getElem?_range hj]
      have hsome : ((mkCopies players).filter (·.mustRest) ++ regShuffled)[j]? =
          some (((mkCopies players).filter (·.mustRest) ++
            regShuffled).getD j ⟨"", false, []⟩) := by
        rw [List.getD_eq_getElem?_getD,
          List.getElem?_eq_getElem (by omega : j <
            ((mkCopies players).filter (·.mustRest) ++ regShuffled).length)]
        rfl
      rw [hsome]
      by_cases hjE : j ∈ E' <;> simp [hjE]
    · rw [List.getElem?_eq_none
        (by rw [List.length_range]; omega : (List.range 10).length ≤ j),
        List.getElem?_eq_none (by omega :
          ((mkCopies players).filter (·.mustRest) ++ regShuffled).length ≤ j)]
      rfl
  have hE10 : ∀ j ∈ E', j < 10 := fun j hj => (hEmem j hj).1
  have hcnt2 : List.countP (fun j => decide (j ∈ E')) (List.range 10) = 2 := by
    rw [countP_mem_range E' 10 hE10, hcard2]
  refine ⟨?_, ?_, ?_, ?_⟩
  · rw [hlist, ← List.countP_eq_length_filter, List.countP_map]
    have hcong : List.countP ((fun p => p.sits.length == 1) ∘ (fun j =>
        if j ∈ E' then
          { (((mkCopies players).filter (·.mustRest) ++
              regShuffled).getD j ⟨"", false, []⟩) with sits := [fq j, 4] }
        else
          { (((mkCopies players).filter (·.mustRest) ++
              regShuffled).getD j ⟨"", false, []⟩) with sits := [fq j] }))
        (List.range 10) =
        List.countP (fun j => decide (j ∈ Finset.range 10 \ E'))
          (List.range 10) := by
      apply List.countP_congr
      intro x hx10
      have hx : x < 10 := List.mem_range.mp hx10
      by_cases hxE : x ∈ E' <;>
        simp [hxE, Finset.mem_sdiff, Finset.mem_range, hx]
    rw [hcong, countP_mem_range _ 10
      (fun j hj => Finset.mem_range.mp (Finset.mem_sdiff.mp hj).1)]
    rw [Finset.card_sdiff (fun j hj => Finset.mem_range.mpr (hE10 j hj))]
    rw [hcard2, Finset.card_range]
  · rw [hlist, ← List.countP_eq_length_filter, List.countP_map]
    have hcong : List.countP ((fun p => p.sits.length == 2) ∘ (fun j =>
        if j ∈ E' then
          { (((mkCopies players).filter (·.mustRest) ++
              regShuffled).getD j ⟨"", false, []⟩) with sits := [fq j, 4] }
        else
          { (((mkCopies players).filter (·.mustRest) ++
              regShuffled).getD j ⟨"", false, []⟩) with sits := [fq j] }))
        (List.range 10) =
        List.countP (fun j => decide (j ∈ E')) (List.range 10) := by
      apply List.countP_congr
      intro x _
      by_cases hx : x ∈ E' <;> simp [hx]
    rw [hcong, hcnt2]
  · intro p hp
    rw [hlist] at hp
    obtain ⟨j, hjmem, hjp⟩ := List.mem_map.mp hp
    by_cases hjE : j ∈ E'
    · rw [if_pos hjE] at hjp
      rw [← hjp]
      rcases (hEmem j hjE).2 with h1 | h1 <;> rw [h1] <;>
        · refine List.Pairwise.cons ?_ (List.pairwise_singleton _ _)
          intro b hb
          simp only [List.mem_singleton] at hb
          subst hb
          decide
    · rw [if_neg hjE] at hjp
      rw [← hjp]
      exact List.pairwise_singleton _ _
  · intro q hq1 hq4
    interval_cases q
    · exact hs1
    · exact hs2
    · exact hs3
    · rw [hs4, hcard2]

/-! ### Per-game player records and the assignment pipeline (worker copy) -/

/-- A roster entry with its per-generation accumulators
(reset at the top of every attempt of `generateLineup`). -/
structure GPlayer where
  name : String
  noKeeper : Bool
  mustRest : Bool
  quartersPlayed : List Nat
  quartersSitting : List Nat
  positionsPlayed : List (Nat × String)
  goalieQuarter : Option Nat
  defensiveQuarters : Nat
  offensiveQuarters : Nat
deriving Repr, DecidableEq

/-- Stable insertion sort: `x` moves ahead of `y` only when `sb x y`; ties
keep the original order.  `Array.prototype.sort` with a comparator is
required to be a stable sort, and the stable sorted permutation is unique,
so this models the source's `sort` calls exactly. -/
def insertBy {α : Type} (sb : α → α → Bool) (x : α) : List α → List α
  | [] => [x]
  | y :: ys => if sb y x then y :: insertBy sb x ys else x :: y :: ys

def sortBy {α : Type} (sb : α → α → Bool) : List α → List α
  | [] => []
  | x :: xs => insertBy sb x (sortBy sb xs)

/-- `selectKeeper(availablePlayers, quarter)`, worker copy (lines 209-219):
drop the `noKeeper` opt-outs (falling back to everyone if that empties the
pool), prefer players who have not kept goal this game, and pick a random
index among them.  `pick` is the sampled random index; `pick %` length is
exactly the range `Math.floor(Math.random() * length)` takes. -/
def selectKeeperW (availablePlayers : List GPlayer) (pick : Nat) :
    Option GPlayer :=
  let allowedKeepers := availablePlayers.filter (fun p => !p.noKeeper)
  let poolToSelectFrom :=
    if allowedKeepers.length > 0 then allowedKeepers else availablePlayers
  let potentialKeepers := poolToSelectFrom.filter (fun p => p.goalieQuarter.isNone)
  if potentialKeepers.length > 0 then
    potentialKeepers[pick % potentialKeepers.length]?
  else
    poolToSelectFrom[0]?

/-- `selectKeeper(availablePlayers, quarter)`, main-thread copy (app.js
lines 2616-2651): additionally sorts the not-yet-keeper candidates by their
season goalkeeper-quarter count (`seasonStats[name]?.goalkeeperQuarters ||
0`, modelled as the total function `seasonGK`) and picks at random within
the group holding the minimum count. -/
def selectKeeperA (seasonGK : String → Nat) (availablePlayers : List GPlayer)
    (pick : Nat) : Option GPlayer :=
  let allowedKeepers := availablePlayers.filter (fun p => !p.noKeeper)
  let poolToSelectFrom :=
    if allowedKeepers.length > 0 then allowedKeepers else availablePlayers
  let potentialKeepers := poolToSelectFrom.filter (fun p => p.goalieQuarter.isNone)
  if potentialKeepers.length > 0 then
    let sorted := sortBy (fun a b => seasonGK a.name < seasonGK b.name)
      potentialKeepers
    let minGK := match sorted[0]? with
      | some p => seasonGK p.name
      | none => 0
    let lowestGKGroup := sorted.filter (fun p => seasonGK p.name == minGK)
    lowestGKGroup[pick % lowestGKGroup.length]?
  else
    poolToSelectFrom[0]?

/-- The score of `(player, position)` (worker `assignPositionsOptimally`,
lines 232-261).  Every term of the source is an integer; `jitter` stands
for the sampled value of `Math.random() * 5`. -/
def scorePlayer (isDefensive : Bool) (position : String) (jitter : Int)
    (player : GPlayer) : Int :=
  let timesPlayedPosition :=
    (player.positionsPlayed.filter (fun pr => pr.2 == position)).length
  let defensive : Int := player.defensiveQuarters
  let offensive : Int := player.offensiveQuarters
  let score0 : Int := 0
  let score1 := if timesPlayedPosition > 0
    then score0 - 1000 * timesPlayedPosition else score0
  let currentImbalance := (defensive - offensive).natAbs
  let projectedImbalance := if isDefensive
    then ((defensive + 1) - offensive).natAbs
    else (defensive - (offensive + 1)).natAbs
  let score2 := if isDefensive
    then score1 + (offensive - defensive) * 100
    else score1 + (defensive - offensive) * 100
  let score3 := if projectedImbalance > currentImbalance
    then score2 - 200 * ((projectedImbalance : Int) - currentImbalance)
    else score2
  score3 + jitter

/-- The greedy loop of `assignPositionsOptimally`: the shuffled position
list is processed from its END backwards (`for (let i = length - 1; i >= 0;
i--)` with `splice(i, 1)`), so this recursion receives the REVERSED
shuffled list.  Each position takes the highest-scoring remaining player
(the source sorts descending — stably — and takes index 0); a position is
skipped, staying in `remainingPositions`, only when no players remain. -/
def assignLoop (defensivePositions : List String)
    (jitter : String → String → Int) :
    List String → List GPlayer →
      List (String × GPlayer) × List String × List GPlayer
  | [], players => ([], [], players)
  | position :: restPos, players =>
    let isDefensive := defensivePositions.contains position
    let scored := players.map (fun p =>
      (p, scorePlayer isDefensive position (jitter position p.name) p))
    let sorted := sortBy (fun a b => a.2 > b.2) scored
    match sorted[0]? with
    | some chosen =>
      let remaining := players.eraseP (fun p => p == chosen.1)
      let rest := assignLoop defensivePositions jitter restPos remaining
      ((position, chosen.1) :: rest.1, rest.2.1, rest.2.2)
    | none =>
      let rest := assignLoop defensivePositions jitter restPos players
      (rest.1, position :: rest.2.1, rest.2.2)

/-- `assignPositionsOptimally(players, positions, defensivePositions)`
(worker lines 221-283): shuffle the positions, run the greedy loop, then
pair any leftover positions with leftover players in order (the source's
final `while` + `shift()` loop; it can only fire when players ran out, so
it never actually pairs anything, but it is embedded for fidelity). -/
def assignPositionsOptimally (shuffle : List String → List String)
    (jitter : String → String → Int) (players : List GPlayer)
    (positions : List String) (defensivePositions : List String) :
    List (String × GPlayer) :=
  let remainingPositions := shuffle positions
  let r := assignLoop defensivePositions jitter remainingPositions.reverse players
  r.1 ++ r.2.1.reverse.zip r.2.2

/-- A quarter's lineup: the `positions` object as an association list in key
insertion order (Keeper first, then assignment order). -/
structure QuarterLineup where
  quarter : Nat
  positions : List (String × String)
deriving Repr, DecidableEq

/-- In-place mutation of the player object named `n`, modelled as a map
over the roster; roster names are unique (data-model invariant), so this
touches exactly the entry the source mutates. -/
def updatePlayer (ps : List GPlayer) (n : String) (f : GPlayer → GPlayer) :
    List GPlayer :=
  ps.map (fun p => if p.name == n then f p else p)

/-- Prefix test on character data (`startsWithChars n h`: `h` starts with
`n`). -/
def startsWithChars : List Char → List Char → Bool
  | [], _ => true
  | _ :: _, [] => false
  | a :: as, b :: bs => a == b && startsWithChars as bs

/-- Contiguous-substring test on character data: `String.includes`. -/
def infixChars (needle : List Char) : List Char → Bool
  | [] => needle.isEmpty
  | c :: rest => startsWithChars needle (c :: rest) || infixChars needle rest

/-- `p.includes('Back') || p === 'Keeper'` — the static defensive-position
rule. -/
def isDefensivePosition (p : String) : Bool :=
  infixChars "Back".data p.data || p == "Keeper"

/-- Applying one greedy assignment (the `assignments.forEach` body of
`generateQuarterLineup`, worker lines 316-326): record the position and
quarter on the assigned player and bump the matching role counter. -/
def applyAssignment (defensivePositions : List String) (quarter : Nat)
    (ps : List GPlayer) (pr : String × GPlayer) : List GPlayer :=
  updatePlayer ps pr.2.name (fun p =>
    if defensivePositions.contains pr.1 then
      { p with quartersPlayed := p.quartersPlayed ++ [quarter],
               positionsPlayed := p.positionsPlayed ++ [(quarter, pr.1)],
               defensiveQuarters := p.defensiveQuarters + 1 }
    else
      { p with quartersPlayed := p.quartersPlayed ++ [quarter],
               positionsPlayed := p.positionsPlayed ++ [(quarter, pr.1)],
               offensiveQuarters := p.offensiveQuarters + 1 })

/-- `generateQuarterLineup(quarter, sittingSchedule, players, positions)`
(worker lines 285-335): split sitting/playing, install the keeper (updating
their accumulators and removing them from pool and positions), run the
greedy pass, apply its assignments, then push the quarter onto every
sitting player's `quartersSitting`. -/
def generateQuarterLineupW (quarter : Nat) (sched : Schedule)
    (players : List GPlayer) (positions : List String)
    (posShuffle : List String → List String) (keeperPick : Nat)
    (jitter : String → String → Int) : QuarterLineup × List GPlayer :=
  let sittingPlayers := sched.get quarter
  let playingPlayers := players.filter (fun p => !(sittingPlayers.contains p.name))
  let defensivePositions := positions.filter isDefensivePosition
  let afterKeeper :
      List (String × String) × List GPlayer × List GPlayer × List String :=
    if positions.contains "Keeper" then
      match selectKeeperW playingPlayers keeperPick with
      | some keeper =>
        ([("Keeper", keeper.name)],
         updatePlayer players keeper.name (fun p =>
           { p with quartersPlayed := p.quartersPlayed ++ [quarter],
                    positionsPlayed := p.positionsPlayed ++ [(quarter, "Keeper")],
                    goalieQuarter := some quarter,
                    defensiveQuarters := p.defensiveQuarters + 1 }),
         playingPlayers.eraseP (fun p => p.name == keeper.name),
         positions.erase "Keeper")
      | none => ([], players, playingPlayers, positions)
    else ([], players, playingPlayers, positions)
  let assignments := assignPositionsOptimally posShuffle jitter
    afterKeeper.2.2.1 afterKeeper.2.2.2 defensivePositions
  let players2 := assignments.foldl
    (applyAssignment defensivePositions quarter) afterKeeper.2.1
  let players3 := players2.map (fun p =>
    if sittingPlayers.contains p.name then
      { p with quartersSitting := p.quartersSitting ++ [quarter] }
    else p)
  (⟨quarter, afterKeeper.1 ++ assignments.map (fun a => (a.1, a.2.name))⟩,
   players3)

/-! ### The validator (worker `validateLineup`, lines 337-387) -/

/-- One violation descriptor per message template of `validateLineup`,
carrying exactly the data the template interpolates. -/
inductive Violation where
  | goalieTooMany (name : String) (count : Nat)
  | consecutiveSitting (name : String) (q1 q2 : Nat)
  | sitsTooMany (name : String) (count : Nat)
  | neverPlayedDefense (name : String)
  | neverPlayedOffense (name : String)
  | imbalance (name : String) (dq oq : Nat)
  | duplicatePosition (name : String) (position : String) (count : Nat)
deriving Repr, DecidableEq

/-- The issues `validateLineup` pushes for one player, in source order:
goalie > 1, consecutive sitting pairs, total sitting > 2, the role checks
(guarded by `totalPlayed > 0`), then one duplicate-position issue per
distinct over-played position (object keys iterate in first-insertion
order, hence `eraseDups`). -/
def playerViolations (p : GPlayer) : List Violation :=
  let goalieQuarters :=
    (p.positionsPlayed.filter (fun pr => pr.2 == "Keeper")).length
  let goalieIssues := if goalieQuarters > 1
    then [Violation.goalieTooMany p.name goalieQuarters] else []
  let consecIssues := (consecPairs p.quartersSitting).map
    (fun ab => Violation.consecutiveSitting p.name ab.1 ab.2)
  let sitsIssues := if p.quartersSitting.length > 2
    then [Violation.sitsTooMany p.name p.quartersSitting.length] else []
  let d := p.defensiveQuarters
  let o := p.offensiveQuarters
  let totalPlayed := p.quartersPlayed.length
  let roleIssues := if totalPlayed > 0 then
      (if d == 0 then [Violation.neverPlayedDefense p.name] else []) ++
      (if o == 0 then [Violation.neverPlayedOffense p.name] else []) ++
      (if natDist d o > 1 then [Violation.imbalance p.name d o] else [])
    else []
  let dupIssues := ((p.positionsPlayed.map (fun pr => pr.2)).eraseDups).filterMap
    (fun pos =>
      let cnt := (p.positionsPlayed.filter (fun pr => pr.2 == pos)).length
      if cnt > 1 then some (Violation.duplicatePosition p.name pos cnt) else none)
  goalieIssues ++ consecIssues ++ sitsIssues ++ roleIssues ++ dupIssues

/-- `validateLineup(players, quarters)`: a pure read of the roster
accumulators, pushing each player's issues in roster order. -/
def validateLineupW (players : List GPlayer) : List Violation :=
  players.foldl (fun issues p => issues ++ playerViolations p) []

/-- The validator as the source exposes it: the issue list together with
the roster it was read from — `validateLineup` never writes to any player
field, so the roster comes back unchanged by construction. -/
def validateLineupRun (players : List GPlayer) :
    List Violation × List GPlayer :=
  (validateLineupW players, players)

/-! ### The bounded search loop (worker `generateLineup`, lines 389-456) -/

/-- The `data` payload of the worker request. -/
structure GenInput where
  players : List GPlayer
  positions : List String
  playersOnField : Nat
  quarters : Nat
  maxAttempts : Nat
deriving Repr

/-- Every `Math.random()`-driven choice of one generation pass, indexed by
the pass number `k` (the loop's attempts are passes `1..attempts`; the
regeneration in the exhaustion branch draws fresh randomness, pass
`attempts + 1`) and, where applicable, the quarter. -/
structure Rand where
  regShuffle : Nat → List SPlayer → List SPlayer
  extraOrder : Nat → Nat → List Nat
  posShuffle : Nat → Nat → List String → List String
  keeperPick : Nat → Nat → Nat
  jitter : Nat → Nat → String → String → Int

/-- The per-attempt reset of the player accumulators (worker lines 402-409). -/
def resetPlayers (players : List GPlayer) : List GPlayer :=
  players.map (fun p =>
    { p with quartersPlayed := [], quartersSitting := [],
             positionsPlayed := [], goalieQuarter := none,
             defensiveQuarters := 0, offensiveQuarters := 0 })

/-- One full generation pass (worker lines 402-418): reset, build the
sitting schedule, then generate the four quarter lineups in order. -/
def generatePass (inp : GenInput) (r : Rand) (k : Nat) :
    List QuarterLineup × List GPlayer :=
  let ps0 := resetPlayers inp.players
  let pairs := ps0.map (fun p => (p.name, p.mustRest))
  let schedSt := determineSittingSchedule pairs
    (r.regShuffle k ((mkCopies pairs).filter (fun p => !p.mustRest)))
    inp.playersOnField inp.quarters
    (r.extraOrder k ps0.length)
  (List.range inp.quarters).foldl (fun acc qi =>
    let q := qi + 1
    let step := generateQuarterLineupW q schedSt.sched acc.2 inp.positions
      (r.posShuffle k q) (r.keeperPick k q) (r.jitter k q)
    (acc.1 ++ [step.1], step.2)) ([], ps0)

/-- The loop state of `generateLineup`: `attempts`, the last pass's lineup,
validation and player records, and the best-so-far bookkeeping
(`bestValidationCount` starts at `Infinity`, modelled as `none`). -/
structure LoopSt where
  attempts : Nat
  lineup : List QuarterLineup
  validation : List Violation
  players : List GPlayer
  best : Option (List QuarterLineup)
  bestCount : Option Nat
deriving Repr, DecidableEq

/-- `validation.length < bestValidationCount` (strict, so ties keep the
earliest-found best). -/
def isBetter (n : Nat) (old : Option Nat) : Bool :=
  match old with
  | none => true
  | some b => n < b

/-- One iteration of the do-while body. -/
def genBody (inp : GenInput) (r : Rand) (k : Nat) (st : LoopSt) : LoopSt :=
  let pass := generatePass inp r k
  let validation := validateLineupW pass.2
  if isBetter validation.length st.bestCount then
    ⟨k, pass.1, validation, pass.2, some pass.1, some validation.length⟩
  else
    ⟨k, pass.1, validation, pass.2, st.best, st.bestCount⟩

/-- The do-while loop (`do { ... } while (validation.length > 0 && attempts
< maxAttempts)`), with enough fuel that the fuel never runs out before the
exit condition triggers. -/
def genLoop (inp : GenInput) (r : Rand) : Nat → LoopSt → LoopSt
  | 0, st => st
  | fuel + 1, st =>
    let st' := genBody inp r (st.attempts + 1) st
    if st'.validation.length > 0 ∧ st'.attempts < inp.maxAttempts then
      genLoop inp r fuel st'
    else st'

/-- What `generateLineup` returns (`{ lineup, validation, attempts,
players }`), extended by the loop's internal best-so-far fields so that
theorems can talk about the recorded best candidate. -/
structure GenResult where
  lineup : List QuarterLineup
  validation : List Violation
  attempts : Nat
  players : List GPlayer
  best : Option (List QuarterLineup)
  bestCount : Option Nat
deriving Repr, DecidableEq

/-- `generateLineup(data)` (worker lines 389-456).  Note the exhaustion
branch (lines 434-453): the source assigns `lineup = bestLineup`, but then
immediately resets the players, regenerates a FRESH schedule and lineup
into `lineup`, and validates that fresh state — so the returned lineup is a
new `(attempts + 1)`-th pass, not the recorded best (despite the adjacent
comment "Re-run validation on the best lineup"). -/
def generateLineupW (inp : GenInput) (r : Rand) : GenResult :=
  let st0 : LoopSt := ⟨0, [], [], inp.players, none, none⟩
  let stF := genLoop inp r (inp.maxAttempts + 1) st0
  if inp.maxAttempts ≤ stF.attempts ∧ stF.validation.length > 0 ∧
      stF.best.isSome then
    let fresh := generatePass inp r (stF.attempts + 1)
    ⟨fresh.1, validateLineupW fresh.2, stF.attempts, fresh.2, stF.best,
     stF.bestCount⟩
  else
    ⟨stF.lineup, stF.validation, stF.attempts, stF.players, stF.best,
     stF.bestCount⟩

/-! ### Facts about the stable sort and keeper selection (C4) -/

theorem mem_insertBy {α : Type} (sb : α → α → Bool) (x : α) (l : List α)
    (a : α) : a ∈ insertBy sb x l ↔ a = x ∨ a ∈ l := by
  induction l with
  | nil => simp [insertBy]
  | cons y ys ih =>
    unfold insertBy
    split
    · simp only [List.mem_cons, ih]
      tauto
    · simp only [List.mem_cons]

theorem mem_sortBy {α : Type} (sb : α → α → Bool) (l : List α) (a : α) :
    a ∈ sortBy sb l ↔ a ∈ l := by
  induction l with
  | nil => simp [sortBy]
  | cons x xs ih =>
    unfold sortBy
    rw [mem_insertBy, ih, List.mem_cons]

theorem length_sortBy {α : Type} (sb : α → α → Bool) (l : List α) :
    (sortBy sb l).length = l.length := by
  have hins : ∀ (x : α) (m : List α),
      (insertBy sb x m).length = m.length + 1 := by
    intro x m
    induction m with
    | nil => rfl
    | cons y ys ih =>
      unfold insertBy
      split <;> simp [ih]
  induction l with
  | nil => rfl
  | cons x xs ih =>
    unfold sortBy
    rw [hins, ih, List.length_cons]

theorem insertBy_key_pairwise {α : Type} (key : α → Nat) (x : α)
    (l : List α) (hl : l.Pairwise (fun a b => key a ≤ key b)) :
    (insertBy (fun a b => key a < key b) x l).Pairwise
      (fun a b => key a ≤ key b) := by
  induction l with
  | nil => simp [insertBy]
  | cons y ys ih =>
    rw [List.pairwise_cons] at hl
    unfold insertBy
    split
    · next hlt =>
      rw [List.pairwise_cons]
      refine ⟨?_, ih hl.2⟩
      intro b hb
      rcases (mem_insertBy _ x ys b).mp hb with rfl | hbm
      · exact Nat.le_of_lt (by simpa using hlt)
      · exact hl.1 b hbm
    · next hnlt =>
      have hxy : key x ≤ key y := by
        simp only [decide_eq_true_eq] at hnlt
        omega
      rw [List.pairwise_cons]
      refine ⟨?_, List.pairwise_cons.mpr hl⟩
      intro b hb
      rcases List.mem_cons.mp hb with rfl | hbm
      · exact hxy
      · exact Nat.le_trans hxy (hl.1 b hbm)

theorem sortBy_key_pairwise {α : Type} (key : α → Nat) (l : List α) :
    (sortBy (fun a b => key a < key b) l).Pairwise
      (fun a b => key a ≤ key b) := by
  induction l with
  | nil => exact List.Pairwise.nil
  | cons x xs ih =>
    unfold sortBy
    exact insertBy_key_pairwise key x _ ih

/-- C4, amended: the main-thread `selectKeeper`.  Whenever the pool is
non-empty it returns a player from the pool; that player avoided `noKeeper`
players whenever any allowed player exists; and whenever some pool member
has not yet kept goal this game, the returned player is such a member whose
season goalkeeper count is minimal among them. -/
theorem selectKeeperA_spec (seasonGK : String → Nat)
    (avail : List GPlayer) (pick : Nat) :
    (avail ≠ [] → ∃ k, selectKeeperA seasonGK avail pick = some k) ∧
    (∀ k, selectKeeperA seasonGK avail pick = some k →
      k ∈ avail ∧
      ((avail.filter (fun p => !p.noKeeper)) ≠ [] → k.noKeeper = false) ∧
      (((if (avail.filter (fun p => !p.noKeeper)).length > 0
            then avail.filter (fun p => !p.noKeeper) else avail).filter
          (fun p => p.goalieQuarter.isNone)) ≠ [] →
        k.goalieQuarter = none ∧
        ∀ q ∈ (if (avail.filter (fun p => !p.noKeeper)).length > 0
            then avail.filter (fun p => !p.noKeeper) else avail).filter
            (fun p => p.goalieQuarter.isNone),
          seasonGK k.name ≤ seasonGK q.name)) := by
  simp only [selectKeeperA]
  set allowed := avail.filter (fun p => !p.noKeeper) with hallowed
  set pool := if allowed.length > 0 then allowed else avail with hpool
  set potential := pool.filter (fun p => p.goalieQuarter.isNone) with hpot
  have hpool_sub : ∀ p, p ∈ pool → p ∈ avail := by
    intro p hp
    rw [hpool] at hp
    split at hp
    · exact List.mem_of_mem_filter (hallowed ▸ hp)
    · exact hp
  have hpool_allowed : allowed ≠ [] → pool = allowed := by
    intro hne
    rw [hpool, if_pos]
    cases hl : allowed with
    | nil => exact absurd hl hne
    | cons a as => simp [hl]
  have hpool_ne : avail ≠ [] → pool ≠ [] := by
    intro hne
    rw [hpool]
    split
    · next hlen =>
      intro hnil
      rw [hnil] at hlen
      simp at hlen
    · exact hne
  by_cases hplen : potential.length > 0
  · -- there is a not-yet-keeper candidate
    rw [if_pos hplen]
    have hs0 : 0 < (sortBy (fun a b =>
        seasonGK a.name < seasonGK b.name) potential).length := by
      rw [length_sortBy]
      omega
    obtain ⟨p0, hp0⟩ : ∃ p0, (sortBy (fun a b =>
        seasonGK a.name < seasonGK b.name) potential)[0]? = some p0 :=
      ⟨_, List.getElem?_eq_getElem hs0⟩
    rw [hp0]
    set sorted := sortBy (fun a b => seasonGK a.name < seasonGK b.name)
      potential with hsorted
    set lowest := sorted.filter
      (fun p => seasonGK p.name == seasonGK p0.name) with hlowest
    have hp0mem : p0 ∈ sorted := by
      obtain ⟨hlt, heq⟩ := List.getElem?_eq_some.mp hp0
      rw [← heq]
      exact List.getElem_mem hlt
    have hlow_len : 0 < lowest.length := by
      have : p0 ∈ lowest := by
        rw [hlowest, List.mem_filter]
        exact ⟨hp0mem, by simp⟩
      cases hl : lowest with
      | nil =>
        rw [hl] at this
        exact absurd this (List.not_mem_nil p0)
      | cons a as => simp [hl]
    obtain ⟨k0, hk0⟩ : ∃ k0, lowest[pick % lowest.length]? = some k0 :=
      ⟨_, List.getElem?_eq_getElem (Nat.mod_lt _ hlow_len)⟩
    rw [hk0]
    have hk0low : k0 ∈ lowest := by
      obtain ⟨hlt, heq⟩ := List.getElem?_eq_some.mp hk0
      rw [← heq]
      exact List.getElem_mem hlt
    have hk0sorted : k0 ∈ sorted := List.mem_of_mem_filter hk0low
    have hk0pot : k0 ∈ potential := (mem_sortBy _ _ _).mp hk0sorted
    have hk0pool : k0 ∈ pool := List.mem_of_mem_filter hk0pot
    have hk0gk : seasonGK k0.name = seasonGK p0.name := by
      have := (List.mem_filter.mp hk0low).2
      simpa using this
    have hpw : sorted.Pairwise
        (fun a b => seasonGK a.name ≤ seasonGK b.name) :=
      sortBy_key_pairwise (fun p : GPlayer => seasonGK p.name) potential
    have hp0min : ∀ q ∈ sorted, seasonGK p0.name ≤ seasonGK q.name := by
      intro q hq
      cases hs : sorted with
      | nil =>
        rw [hs] at hq
        exact absurd hq (List.not_mem_nil q)
      | cons a as =>
        have ha : a = p0 := by
          rw [hs] at hp0
          simpa using hp0
        rw [hs] at hq hpw
        rw [List.pairwise_cons] at hpw
        rcases List.mem_cons.mp hq with rfl | hqm
        · rw [ha]
        · rw [← ha]
          exact hpw.1 q hqm
    constructor
    · intro _
      exact ⟨k0, rfl⟩
    · intro k hk
      cases hk
      refine ⟨hpool_sub _ hk0pool, ?_, ?_⟩
      · intro hne
        rw [hpool_allowed hne] at hk0pool
        have := (List.mem_filter.mp (hallowed ▸ hk0pool)).2
        simpa using this
      · intro _
        refine ⟨?_, ?_⟩
        · have := (List.mem_filter.mp hk0pot).2
          simpa [Option.isNone_iff_eq_none] using this
        · intro q hq
          rw [hk0gk]
          exact hp0min q ((mem_sortBy _ _ _).mpr hq)
  · -- everyone already kept goal: `poolToSelectFrom[0]`
    rw [if_neg hplen]
    have hpool0 : pool ≠ [] → ∃ k0, pool[0]? = some k0 := by
      intro hne
      refine ⟨_, List.getElem?_eq_getElem ?_⟩
      cases hl : pool with
      | nil => exact absurd hl hne
      | cons a as => simp [hl]
    constructor
    · intro hne
      exact hpool0 (hpool_ne hne)
    · intro k hk
      have hkpool : k ∈ pool := by
        obtain ⟨hlt, heq⟩ := List.getElem?_eq_some.mp hk
        rw [← heq]
        exact List.getElem_mem hlt
      refine ⟨hpool_sub _ hkpool, ?_, ?_⟩
      · intro hne
        rw [hpool_allowed hne] at hkpool
        have := (List.mem_filter.mp (hallowed ▸ hkpool)).2
        simpa using this
      · intro hne
        exfalso
        apply hplen
        cases hl : potential with
        | nil => exact absurd hl hne
        | cons a as => simp [hl]

/-! ### The worker `selectKeeper` and the `noKeeper` opt-out (C5) -/

theorem getElem?_mem_of_some {α : Type} {l : List α} {i : Nat} {a : α}
    (h : l[i]? = some a) : a ∈ l := by
  obtain ⟨hlt, heq⟩ := List.getElem?_eq_some.mp h
  rw [← heq]
  exact List.getElem_mem hlt

theorem ne_nil_length_pos {α : Type} {l : List α} (h : l ≠ []) :
    0 < l.length := by
  cases hl : l with
  | nil => exact absurd hl h
  | cons a as => simp [hl]

theorem selectKeeperW_isSome (avail : List GPlayer) (pick : Nat)
    (hne : avail ≠ []) : ∃ k, selectKeeperW avail pick = some k := by
  simp only [selectKeeperW]
  set allowed := avail.filter (fun p => !p.noKeeper) with hallowed
  set pool := if allowed.length > 0 then allowed else avail with hpool
  set potential := pool.filter (fun p => p.goalieQuarter.isNone) with hpot
  have hpoolne : pool ≠ [] := by
    rw [hpool]
    split
    · next hlen =>
      intro hnil
      rw [hnil] at hlen
      simp at hlen
    · exact hne
  by_cases hplen : potential.length > 0
  · rw [if_pos hplen]
    exact ⟨_, List.getElem?_eq_getElem (Nat.mod_lt _ hplen)⟩
  · rw [if_neg hplen]
    exact ⟨_, List.getElem?_eq_getElem (ne_nil_length_pos hpoolne)⟩

theorem selectKeeperW_mem {avail : List GPlayer} {pick : Nat} {k : GPlayer}
    (h : selectKeeperW avail pick = some k) : k ∈ avail := by
  simp only [selectKeeperW] at h
  set allowed := avail.filter (fun p => !p.noKeeper) with hallowed
  set pool := if allowed.length > 0 then allowed else avail with hpool
  have hpool_sub : ∀ p, p ∈ pool → p ∈ avail := by
    intro p hp
    rw [hpool] at hp
    split at hp
    · exact List.mem_of_mem_filter (hallowed ▸ hp)
    · exact hp
  split at h
  · exact hpool_sub _ (List.mem_of_mem_filter (getElem?_mem_of_some h))
  · exact hpool_sub _ (getElem?_mem_of_some h)

theorem selectKeeperW_noKeeper {avail : List GPlayer} {pick : Nat}
    {k : GPlayer} (hne : avail.filter (fun p => !p.noKeeper) ≠ [])
    (h : selectKeeperW avail pick = some k) : k.noKeeper = false := by
  simp only [selectKeeperW] at h
  set allowed := avail.filter (fun p => !p.noKeeper) with hallowed
  have hlen : allowed.length > 0 := ne_nil_length_pos hne
  rw [if_pos hlen] at h
  have hmem : k ∈ allowed := by
    split at h
    · exact List.mem_of_mem_filter (getElem?_mem_of_some h)
    · exact getElem?_mem_of_some h
  have := (List.mem_filter.mp (hallowed ▸ hmem)).2
  simpa using this

theorem selectKeeperA_noKeeper {seasonGK : String → Nat}
    {avail : List GPlayer} {pick : Nat} {k : GPlayer}
    (hne : avail.filter (fun p => !p.noKeeper) ≠ [])
    (h : selectKeeperA seasonGK avail pick = some k) : k.noKeeper = false := by
  simp only [selectKeeperA] at h
  set allowed := avail.filter (fun p => !p.noKeeper) with hallowed
  have hlen : allowed.length > 0 := ne_nil_length_pos hne
  rw [if_pos hlen] at h
  have hmem : k ∈ allowed := by
    split at h
    · exact List.mem_of_mem_filter
        ((mem_sortBy _ _ _).mp
          (List.mem_of_mem_filter (getElem?_mem_of_some h)))
    · exact getElem?_mem_of_some h
  have := (List.mem_filter.mp (hallowed ▸ hmem)).2
  simpa using this

/-! ### The keeper assignment counts as defensive play (C10) -/

/-- Look a player up by name (roster names are unique). -/
def findPlayer (ps : List GPlayer) (n : String) : Option GPlayer :=
  ps.find? (fun p => p.name == n)

theorem findPlayer_map_stable (ps : List GPlayer) (n : String)
    (g : GPlayer → GPlayer) (hg : ∀ p, (g p).name = p.name) :
    findPlayer (ps.map g) n = (findPlayer ps n).map g := by
  induction ps with
  | nil => rfl
  | cons p rest ih =>
    unfold findPlayer at ih ⊢
    simp only [List.map_cons, List.find?_cons]
    have hpr : ((g p).name == n) = (p.name == n) := by rw [hg]
    rw [hpr]
    cases hp : (p.name == n) with
    | true => rfl
    | false => exact ih

theorem findPlayer_name {ps : List GPlayer} {n : String} {p : GPlayer}
    (h : findPlayer ps n = some p) : p.name = n := by
  have := List.find?_some h
  simpa using this

theorem findPlayer_updatePlayer_ne (ps : List GPlayer) (m n : String)
    (f : GPlayer → GPlayer) (hf : ∀ p, (f p).name = p.name) (hne : n ≠ m) :
    findPlayer (updatePlayer ps m f) n = findPlayer ps n := by
  unfold updatePlayer
  rw [findPlayer_map_stable ps n _ (fun p => by
    by_cases hp : (p.name == m) = true <;> simp [hp, hf])]
  cases h : findPlayer ps n with
  | none => rfl
  | some p0 =>
    have hp0n : p0.name = n := findPlayer_name h
    have hnb : ¬ ((p0.name == m) = true) := by
      rw [hp0n]
      simpa using hne
    show some (if p0.name == m then f p0 else p0) = some p0
    rw [if_neg hnb]

theorem findPlayer_updatePlayer_self (ps : List GPlayer) (m : String)
    (f : GPlayer → GPlayer) (hf : ∀ p, (f p).name = p.name) :
    findPlayer (updatePlayer ps m f) m = (findPlayer ps m).map f := by
  unfold updatePlayer
  rw [findPlayer_map_stable ps m _ (fun p => by
    by_cases hp : (p.name == m) = true <;> simp [hp, hf])]
  cases h : findPlayer ps m with
  | none => rfl
  | some p0 =>
    have hp0n : p0.name = m := findPlayer_name h
    have hpb : (p0.name == m) = true := by simp [hp0n]
    show some (if p0.name == m then f p0 else p0) = some (f p0)
    rw [if_pos hpb]

theorem findPlayer_eq_self {ps : List GPlayer} {k : GPlayer}
    (hnd : (ps.map (·.name)).Nodup) (hk : k ∈ ps) :
    findPlayer ps k.name = some k := by
  induction ps with
  | nil => exact absurd hk (List.not_mem_nil k)
  | cons x xs ih =>
    rw [List.map_cons, List.nodup_cons] at hnd
    rcases List.mem_cons.mp hk with rfl | hkxs
    · unfold findPlayer
      rw [List.find?_cons_of_pos _ (by simp)]
    · have hxk : (x.name == k.name) = false := by
        by_contra hcon
        have hx : x.name = k.name := by
          have : (x.name == k.name) = true := by
            cases hb : (x.name == k.name) with
            | true => rfl
            | false => exact absurd hb hcon
          simpa using this
        apply hnd.1
        rw [hx]
        exact List.mem_map.mpr ⟨k, hkxs, rfl⟩
      unfold findPlayer
      rw [List.find?_cons_of_neg _ (by simp [hxk])]
      exact ih hnd.2 hkxs

theorem findPlayer_fold_applyAssignment (dp : List String) (quarter : Nat)
    (kname : String) :
    ∀ (assignments : List (String × GPlayer)) (ps : List GPlayer),
      (∀ pr ∈ assignments, pr.2.name ≠ kname) →
      findPlayer (assignments.foldl (applyAssignment dp quarter) ps) kname =
        findPlayer ps kname := by
  intro assignments
  induction assignments with
  | nil => intro ps _; rfl
  | cons pr rest ih =>
    intro ps hne
    rw [List.foldl_cons]
    rw [ih _ (fun pr' hpr' => hne pr' (List.mem_cons_of_mem pr hpr'))]
    exact findPlayer_updatePlayer_ne ps pr.2.name kname _
      (fun p => by split <;> rfl)
      (fun h => hne pr (List.mem_cons_self pr rest) h.symm)

theorem assignLoop_sub (dp : List String) (jit : String → String → Int) :
    ∀ (posl : List String) (ps : List GPlayer),
      (∀ pr ∈ (assignLoop dp jit posl ps).1, pr.2 ∈ ps) ∧
      (∀ p ∈ (assignLoop dp jit posl ps).2.2, p ∈ ps) := by
  intro posl
  induction posl with
  | nil =>
    intro ps
    constructor
    · intro pr hpr
      exact absurd hpr (List.not_mem_nil pr)
    · intro p hp
      exact hp
  | cons position restPos ih =>
    intro ps
    simp only [assignLoop]
    split
    · next chosen hchosen =>
      have hch : chosen.1 ∈ ps := by
        have hmem := getElem?_mem_of_some hchosen
        have := (mem_sortBy _ _ _).mp hmem
        obtain ⟨p, hpmem, hpeq⟩ := List.mem_map.mp this
        rw [← hpeq]
        exact hpmem
      have hsub := List.eraseP_subset (p := fun p => p == chosen.1) ps
      obtain ⟨ih1, ih2⟩ := ih (ps.eraseP (fun p => p == chosen.1))
      constructor
      · intro pr hpr
        rcases List.mem_cons.mp hpr with rfl | hpr'
        · exact hch
        · exact hsub (ih1 pr hpr')
      · intro p hp
        exact hsub (ih2 p hp)
    · obtain ⟨ih1, ih2⟩ := ih ps
      constructor
      · intro pr hpr
        exact ih1 pr hpr
      · intro p hp
        exact ih2 p hp

theorem assignPositionsOptimally_sub (shuffle : List String → List String)
    (jit : String → String → Int) (players : List GPlayer)
    (positions : List String) (dp : List String) :
    ∀ pr ∈ assignPositionsOptimally shuffle jit players positions dp,
      pr.2 ∈ players := by
  intro pr hpr
  unfold assignPositionsOptimally at hpr
  obtain ⟨h1, h2⟩ := assignLoop_sub dp jit (shuffle positions).reverse players
  rcases List.mem_append.mp hpr with hm | hm
  · exact h1 pr hm
  · rcases pr with ⟨pos, pl⟩
    exact h2 pl (List.of_mem_zip hm).2

theorem eraseP_name_ne {l : List GPlayer} {k : GPlayer}
    (hnd : (l.map (·.name)).Nodup) (hk : k ∈ l) :
    ∀ p ∈ l.eraseP (fun p => p.name == k.name), p.name ≠ k.name := by
  induction l with
  | nil => intro p hp; exact absurd hp (List.not_mem_nil p)
  | cons x xs ih =>
    rw [List.map_cons, List.nodup_cons] at hnd
    intro p hp
    by_cases hx : (x.name == k.name) = true
    · rw [List.eraseP_cons_of_pos (p := fun q : GPlayer => q.name == k.name) hx] at hp
      intro hcon
      apply hnd.1
      have hxk : x.name = k.name := by simpa using hx
      rw [hxk, ← hcon]
      exact List.mem_map.mpr ⟨p, hp, rfl⟩
    · rw [List.eraseP_cons_of_neg (p := fun q : GPlayer => q.name == k.name) hx] at hp
      rcases List.mem_cons.mp hp with rfl | hp'
      · intro hcon
        exact hx (by simp [hcon])
      · have hkxs : k ∈ xs := by
          rcases List.mem_cons.mp hk with rfl | h
          · exact absurd (by simp) hx
          · exact h
        exact ih hnd.2 hkxs p hp'

/-- C10: when the formation has a Keeper slot and anyone is playing, the
quarter's Keeper is the player `selectKeeper` chose; the quarter leaves that
player's `defensiveQuarters` incremented by exactly one and their
`offensiveQuarters` untouched (together with the quarter/position/goalie
bookkeeping), because the keeper is removed from the greedy pool before the
remaining positions are assigned. -/
theorem keeper_assignment_is_defensive (quarter : Nat) (sched : Schedule)
    (players : List GPlayer) (positions : List String)
    (posShuffle : List String → List String) (keeperPick : Nat)
    (jitter : String → String → Int)
    (hnd : (players.map (·.name)).Nodup)
    (hK : "Keeper" ∈ positions)
    (hplay : players.filter
      (fun p => !((sched.get quarter).contains p.name)) ≠ []) :
    ∃ keeper : GPlayer,
      selectKeeperW (players.filter
        (fun p => !((sched.get quarter).contains p.name))) keeperPick =
        some keeper ∧
      (generateQuarterLineupW quarter sched players positions posShuffle
        keeperPick jitter).1.positions.head? = some ("Keeper", keeper.name) ∧
      findPlayer (generateQuarterLineupW quarter sched players positions
        posShuffle keeperPick jitter).2 keeper.name =
        some { keeper with
               quartersPlayed := keeper.quartersPlayed ++ [quarter],
               positionsPlayed := keeper.positionsPlayed ++ [(quarter, "Keeper")],
               goalieQuarter := some quarter,
               defensiveQuarters := keeper.defensiveQuarters + 1 } := by
  obtain ⟨keeper, hsel⟩ := selectKeeperW_isSome
    (players.filter (fun p => !((sched.get quarter).contains p.name)))
    keeperPick hplay
  have hkeepmem := selectKeeperW_mem hsel
  have hkeepplayers : keeper ∈ players := List.mem_of_mem_filter hkeepmem
  have hknd : ((players.filter
      (fun p => !((sched.get quarter).contains p.name))).map (·.name)).Nodup :=
    List.Nodup.sublist (List.Sublist.map _ (List.filter_sublist players)) hnd
  have hksit : ((sched.get quarter).contains keeper.name) = false := by
    have := (List.mem_filter.mp hkeepmem).2
    simpa using this
  have hKc : positions.contains "Keeper" = true := List.elem_iff.mpr hK
  have hne : ∀ pr ∈ assignPositionsOptimally posShuffle jitter
      ((players.filter (fun p =>
        !((sched.get quarter).contains p.name))).eraseP
        (fun p => p.name == keeper.name))
      (positions.erase "Keeper") (positions.filter isDefensivePosition),
      pr.2.name ≠ keeper.name := by
    intro pr hpr
    have hsub := assignPositionsOptimally_sub posShuffle jitter _ _ _ pr hpr
    exact eraseP_name_ne hknd hkeepmem pr.2 hsub
  refine ⟨keeper, hsel, ?_, ?_⟩
  · simp only [generateQuarterLineupW, hKc, if_true, hsel]
    rfl
  · simp only [generateQuarterLineupW, hKc, if_true, hsel]
    rw [findPlayer_map_stable _ _ _ (fun p => by split <;> rfl)]
    rw [findPlayer_fold_applyAssignment _ _ _ _ _ hne]
    rw [findPlayer_updatePlayer_self players keeper.name (fun p =>
      { p with quartersPlayed := p.quartersPlayed ++ [quarter],
               positionsPlayed := p.positionsPlayed ++ [(quarter, "Keeper")],
               goalieQuarter := some quarter,
               defensiveQuarters := p.defensiveQuarters + 1 }) (fun p => rfl)]
    rw [findPlayer_eq_self hnd hkeepplayers]
    have hnmem : keeper.name ∉ sched.get quarter := by
      intro hmem
      have hc : (sched.get quarter).contains keeper.name = true :=
        List.elem_iff.mpr hmem
      rw [hc] at hksit
      simp at hksit
    simp [hnmem]

/-! ### The bounded search loop always returns a full lineup (C8) -/

theorem generateQuarterLineupW_quarter (quarter : Nat) (sched : Schedule)
    (players : List GPlayer) (positions : List String)
    (posShuffle : List String → List String) (keeperPick : Nat)
    (jitter : String → String → Int) :
    (generateQuarterLineupW quarter sched players positions posShuffle
      keeperPick jitter).1.quarter = quarter := by
  simp only [generateQuarterLineupW]

theorem generatePass_quarters (inp : GenInput) (r : Rand) (k : Nat) :
    (generatePass inp r k).1.map (·.quarter) =
      (List.range inp.quarters).map (· + 1) := by
  unfold generatePass
  refine foldl_range_inv _
    (fun (j : Nat) (acc : List QuarterLineup × List GPlayer) =>
      acc.1.map (·.quarter) = (List.range j).map (· + 1))
    inp.quarters _ rfl ?_
  intro j acc hj hinv
  simp only [List.map_append, hinv, List.range_succ, List.map_append]
  congr 1

theorem genBody_attempts (inp : GenInput) (r : Rand) (k : Nat) (st : LoopSt) :
    (genBody inp r k st).attempts = k := by
  simp only [genBody]
  split <;> rfl

theorem genBody_pass (inp : GenInput) (r : Rand) (k : Nat) (st : LoopSt) :
    (genBody inp r k st).lineup = (generatePass inp r k).1 := by
  simp only [genBody]
  split <;> rfl

theorem genLoop_attempts (inp : GenInput) (r : Rand) :
    ∀ (fuel : Nat) (st : LoopSt), st.attempts < inp.maxAttempts →
      (genLoop inp r fuel st).attempts ≤ inp.maxAttempts := by
  intro fuel
  induction fuel with
  | zero => intro st h; exact Nat.le_of_lt h
  | succ f ih =>
    intro st h
    simp only [genLoop]
    split
    · next hcond => exact ih _ hcond.2
    · next hcond =>
      rw [genBody_attempts]
      omega

theorem genLoop_pass (inp : GenInput) (r : Rand) :
    ∀ (fuel : Nat) (st : LoopSt),
      (∃ k, st.lineup = (generatePass inp r k).1) →
      ∃ k, (genLoop inp r fuel st).lineup = (generatePass inp r k).1 := by
  intro fuel
  induction fuel with
  | zero => intro st h; exact h
  | succ f ih =>
    intro st _
    simp only [genLoop]
    split
    · exact ih _ ⟨st.attempts + 1, genBody_pass inp r _ st⟩
    · exact ⟨st.attempts + 1, genBody_pass inp r _ st⟩

/-- C8: for every input and every draw of the randomness, `generateLineup`
returns normally: the lineup is the ordered list of quarters `1..Q`
(hence exactly `Q` quarter lineups) together with a validation list, after
at most `maxAttempts` counted attempts.  Inability to satisfy the rules
shows up only in the returned (possibly non-empty) validation list. -/
theorem generateLineup_no_failure (inp : GenInput) (r : Rand)
    (hmax : 1 ≤ inp.maxAttempts) :
    ((generateLineupW inp r).lineup.map (·.quarter) =
      (List.range inp.quarters).map (· + 1)) ∧
    (generateLineupW inp r).lineup.length = inp.quarters ∧
    (generateLineupW inp r).attempts ≤ inp.maxAttempts := by
  have hquarters : ∀ k, ((generatePass inp r k).1.map (·.quarter) =
      (List.range inp.quarters).map (· + 1)) := generatePass_quarters inp r
  have hlen : ∀ l : List QuarterLineup,
      l.map (·.quarter) = (List.range inp.quarters).map (· + 1) →
      l.length = inp.quarters := by
    intro l hl
    have := congrArg List.length hl
    simpa using this
  have hattempts : (genLoop inp r (inp.maxAttempts + 1)
      ⟨0, [], [], inp.players, none, none⟩).attempts ≤ inp.maxAttempts :=
    genLoop_attempts inp r _ _ (by simpa using hmax)
  have hpass : ∃ k, (genLoop inp r (inp.maxAttempts + 1)
      ⟨0, [], [], inp.players, none, none⟩).lineup =
      (generatePass inp r k).1 := by
    have : genLoop inp r (inp.maxAttempts + 1)
        ⟨0, [], [], inp.players, none, none⟩ =
        genLoop inp r inp.maxAttempts.succ ⟨0, [], [], inp.players, none, none⟩ := rfl
    rw [this]
    simp only [genLoop]
    split
    · exact genLoop_pass inp r _ _ ⟨1, genBody_pass inp r _ _⟩
    · exact ⟨1, genBody_pass inp r _ _⟩
  simp only [generateLineupW]
  split
  · -- exhaustion branch: a fresh pass is returned
    refine ⟨hquarters _, hlen _ (hquarters _), hattempts⟩
  · obtain ⟨k, hk⟩ := hpass
    simp only
    rw [hk]
    exact ⟨hquarters k, hlen _ (hquarters k), hattempts⟩

/-! ### The validator is pure (C7) -/

/-- C7: `validateLineup` is a pure read of the roster accumulators — it
hands the roster back unchanged, and a second run on the state the first
run returns yields the identical violation list (same elements, same
order). -/
theorem validateLineup_pure_idempotent (players : List GPlayer) :
    (validateLineupRun players).2 = players ∧
    (validateLineupRun ((validateLineupRun players).2)).1 =
      (validateLineupRun players).1 :=
  ⟨rfl, rfl⟩

/-! ### Concrete runs: counterexamples and witnesses -/

/-- A fresh roster entry, all accumulators empty. -/
def mkP (n : String) (nk mr : Bool) : GPlayer :=
  ⟨n, nk, mr, [], [], [], none, 0, 0⟩

/-- Four players on a four-slot field: nobody ever sits, everybody opted
out of keeping goal (`noKeeper`), and `D` must rest. -/
def ceInput : GenInput :=
  ⟨[mkP "A" true false, mkP "B" true false, mkP "C" true false,
    mkP "D" true true], ["Keeper", "Back", "Mid", "Striker"], 4, 4, 1⟩

/-- A draw of the randomness under which `ceInput` produces a lineup the
validator fully accepts (a Latin square of the four positions). -/
def ceRand : Rand where
  regShuffle := fun _ l => l
  extraOrder := fun _ n => List.range n
  posShuffle := fun _ _ l => l.reverse
  keeperPick := fun _ q => if q = 2 then 1 else 0
  jitter := fun _ q pos name =>
    if q = 1 then
      (if pos = "Back" ∧ name = "B" then 1
       else if pos = "Mid" ∧ name = "C" then 1 else 0)
    else if q = 2 then (if pos = "Mid" ∧ name = "A" then 1 else 0)
    else if q = 3 then (if pos = "Back" ∧ name = "A" then 1 else 0)
    else 0

/-- Counterexample to C5 as stated: the validator has no `noKeeper` rule.
This run is accepted — the final violation list is empty — yet the Keeper
of quarter 1 is `A`, who has `noKeeper = true` (all four players opted out,
so `selectKeeper`'s fallback fields one of them every quarter). -/
theorem accepted_lineup_noKeeper_counterexample :
    (generateLineupW ceInput ceRand).validation = [] ∧
    ((generateLineupW ceInput ceRand).lineup.head?.map
      (fun ql => ql.positions.head?)) = some (some ("Keeper", "A")) ∧
    (findPlayer ceInput.players "A").map (·.noKeeper) = some true := by
  decide

/-- Counterexample to C6 as stated: the validator has no `mustRest` rule.
The same accepted run (empty violation list) leaves `D` — flagged
`mustRest` — playing all four quarters with an empty `quartersSitting`
list, because a full field (`10 - 7` analogue: `4 - 4 = 0` sitting slots)
gives the scheduler no capacity to honour the flag. -/
theorem accepted_lineup_mustRest_counterexample :
    (generateLineupW ceInput ceRand).validation = [] ∧
    (findPlayer ceInput.players "D").map (·.mustRest) = some true ∧
    (findPlayer (generateLineupW ceInput ceRand).players "D").map
      (·.quartersSitting) = some [] := by
  decide

/-- Two players for a two-slot field with `maxAttempts = 2`: every pass is
invalid (each player keeps goal or strikes every quarter), so the loop
exhausts its attempts with a recorded best. -/
def c1Input : GenInput :=
  ⟨[mkP "A" false false, mkP "B" false false], ["Keeper", "Striker"], 2, 4, 2⟩

/-- Randomness for `c1Input` under which the fresh regeneration of the
exhaustion branch (pass 3) differs from the recorded best (pass 1): only
pass 3 swaps the quarter-1 keeper. -/
def c1Rand : Rand where
  regShuffle := fun _ l => l
  extraOrder := fun _ n => List.range n
  posShuffle := fun _ _ l => l
  keeperPick := fun k q => if k = 3 ∧ q = 1 then 1 else 0
  jitter := fun _ _ _ _ => 0

/-- C1 (refuted — code bug in the worker's exhaustion branch, lines
434-453): the loop exhausts `maxAttempts = 2` with violations remaining and
a best candidate recorded (pass 1), but the returned lineup is a freshly
generated pass-3 lineup — the branch overwrites `lineup = bestLineup` with
a full regeneration despite its own comment — and here the fresh pass
differs from the recorded best. -/
theorem generateLineup_returns_fresh_not_best :
    (generateLineupW c1Input c1Rand).attempts = 2 ∧
    (generateLineupW c1Input c1Rand).validation.length > 0 ∧
    (generateLineupW c1Input c1Rand).best =
      some (generatePass c1Input c1Rand 1).1 ∧
    (generateLineupW c1Input c1Rand).lineup =
      (generatePass c1Input c1Rand 3).1 ∧
    (generatePass c1Input c1Rand 3).1 ≠ (generatePass c1Input c1Rand 1).1 := by
  decide

/-- The season goalkeeper statistics of the C4 counterexample: `H` has kept
goal five quarters this season, `L` none. -/
def ceSeasonGK : String → Nat := fun n => if n = "H" then 5 else 0

/-- Counterexample to C4 as stated: the worker `selectKeeper` (lines
209-219) never reads season statistics — both players are allowed and have
yet to keep goal, and it returns `H` (5 season goalkeeper quarters) even
though `L` (0 quarters) is in the pool; the main-thread copy returns `L`. -/
theorem selectKeeper_ignores_season_counterexample :
    selectKeeperW [mkP "H" false false, mkP "L" false false] 0 =
      some (mkP "H" false false) ∧
    ceSeasonGK "H" = 5 ∧ ceSeasonGK "L" = 0 ∧
    selectKeeperA ceSeasonGK [mkP "H" false false, mkP "L" false false] 0 =
      some (mkP "L" false false) := by
  decide

/-- C5, amended: the `noKeeper` guarantee is enforced by `selectKeeper`
itself (both copies), not by the validator — whenever at least one playing
player allows keeping goal, the selected keeper has `noKeeper = false`.
The validator has no `noKeeper` rule, so when every playing player opted
out an accepted lineup can still field an opted-out keeper (see the
counterexample). -/
theorem selected_keeper_not_noKeeper (avail : List GPlayer) (pick : Nat)
    (seasonGK : String → Nat)
    (hne : avail.filter (fun p => !p.noKeeper) ≠ []) :
    (∀ k, selectKeeperW avail pick = some k → k.noKeeper = false) ∧
    (∀ k, selectKeeperA seasonGK avail pick = some k → k.noKeeper = false) :=
  ⟨fun _ h => selectKeeperW_noKeeper hne h,
   fun _ h => selectKeeperA_noKeeper hne h⟩

theorem selected_keeper_not_noKeeper_witness :
    (∀ k, selectKeeperW [mkP "L" false false] 0 = some k →
      k.noKeeper = false) ∧
    (∀ k, selectKeeperA ceSeasonGK [mkP "L" false false] 0 = some k →
      k.noKeeper = false) :=
  selected_keeper_not_noKeeper [mkP "L" false false] 0 ceSeasonGK (by decide)

theorem findNonConsecutive_characterization_witness :
    (1 : Nat) ∈ [1, 2, 3, 4] ∧ (Schedule.empty.get 1).length < 1 ∧
      (1 : Nat) ∉ ([] : List Nat) ∧
      ∀ sat ∈ ([] : List Nat), natDist sat 1 ≠ 1 :=
  (findNonConsecutive_characterization [] Schedule.empty 1).1 1 (by decide)

/-- A ten-player roster, one `mustRest` flag set. -/
def tenPlayers : List (String × Bool) :=
  [("p0", false), ("p1", false), ("p2", true), ("p3", false), ("p4", false),
   ("p5", false), ("p6", false), ("p7", false), ("p8", false), ("p9", false)]

/-- The identity draw of the regular-player shuffle over `tenPlayers`. -/
def tenReg : List SPlayer := (mkCopies tenPlayers).filter (fun p => !p.mustRest)

theorem ten_player_sitting_distribution_witness :
    ((determineSittingSchedule tenPlayers tenReg 7 4 (List.range 10)).ps.filter
        (fun p => p.sits.length == 1)).length = 8 ∧
    ((determineSittingSchedule tenPlayers tenReg 7 4 (List.range 10)).ps.filter
        (fun p => p.sits.length == 2)).length = 2 :=
  ⟨(ten_player_sitting_distribution tenPlayers tenReg (List.range 10)
      (by decide) (List.Perm.refl _) (List.Perm.refl _)).1,
   (ten_player_sitting_distribution tenPlayers tenReg (List.range 10)
      (by decide) (List.Perm.refl _) (List.Perm.refl _)).2.1⟩

theorem selectKeeperA_spec_witness :
    ∃ k, selectKeeperA ceSeasonGK [mkP "L" false false] 0 = some k :=
  (selectKeeperA_spec ceSeasonGK [mkP "L" false false] 0).1 (by decide)

theorem mustRest_players_sit_witness :
    1 ≤ (SPlayer.mk "r" true [1, 3]).sits.length :=
  mustRest_players_sit [("r", true)] [] 0 4 [0] (List.Perm.refl _) (by decide)
    ⟨"r", true, [1, 3]⟩ (by decide) rfl

theorem scheduler_no_adjacent_sitting_witness :
    consecPairs (sittingListOf (determineSittingSchedule tenPlayers tenReg 7 4
      (List.range 10)).sched "p0") = [] :=
  (scheduler_no_adjacent_sitting tenPlayers tenReg 7 4 (List.range 10)
      (by decide) (by decide)).2.2 "p0"

theorem generateLineup_no_failure_witness :
    ((generateLineupW ceInput ceRand).lineup.map (·.quarter) =
      (List.range ceInput.quarters).map (· + 1)) ∧
    (generateLineupW ceInput ceRand).lineup.length = ceInput.quarters ∧
    (generateLineupW ceInput ceRand).attempts ≤ ceInput.maxAttempts :=
  generateLineup_no_failure ceInput ceRand (by decide)

theorem keeper_assignment_is_defensive_witness :
    ∃ keeper : GPlayer,
      selectKeeperW ([mkP "A" false false].filter
        (fun p => !((Schedule.empty.get 1).contains p.name))) 0 =
        some keeper ∧
      (generateQuarterLineupW 1 Schedule.empty [mkP "A" false false]
        ["Keeper"] (fun l => l) 0 (fun _ _ => 0)).1.positions.head? =
        some ("Keeper", keeper.name) ∧
      findPlayer (generateQuarterLineupW 1 Schedule.empty [mkP "A" false false]
        ["Keeper"] (fun l => l) 0 (fun _ _ => 0)).2 keeper.name =
        some { keeper with
               quartersPlayed := keeper.quartersPlayed ++ [1],
               positionsPlayed := keeper.positionsPlayed ++ [(1, "Keeper")],
               goalieQuarter := some 1,
               defensiveQuarters := keeper.defensiveQuarters + 1 } :=
  keeper_assignment_is_defensive 1 Schedule.empty [mkP "A" false false]
    ["Keeper"] (fun l => l) 0 (fun _ _ => 0) (by decide) (by decide) (by decide)

end Soccer
